import Mathlib

/-!
Verification of the Draw.io flowchart decode → extract → classify → analyze
pipeline (`drawioParser` module).  The TypeScript source is embedded shallowly:

* JavaScript string operations (`trim`, `startsWith`, `includes`, global
  `replace`, `toLowerCase`) are re-implemented over `List Char` so that every
  definition is executable and kernel-reducible.
* Browser/library externals (`pako.inflateRaw ∘ atob`, `decodeURIComponent`,
  `DOMParser.parseFromString`) are passed in as opaque function parameters
  returning `Option` (`none` models a thrown exception).
* JavaScript truthiness on optional strings (`undefined` and `""` are falsy)
  is modelled by `truthyStr`.
* A code path that throws an uncaught exception is modelled by an `Option`
  result of `none` (see `deadEndIssueFor`).
-/

namespace Flowchart

/-! ## JavaScript string primitives (over `List Char`) -/

/-- Whitespace characters recognised by JavaScript `trim` (ASCII fragment). -/
def isJsWS (c : Char) : Bool :=
  c == ' ' || c == '\t' || c == '\n' || c == '\r'

/-- JavaScript `String.prototype.trim` (ASCII whitespace). -/
def jsTrim (s : String) : String :=
  ⟨((s.data.dropWhile isJsWS).reverse.dropWhile isJsWS).reverse⟩

/-- JavaScript `String.prototype.startsWith`. -/
def jsStartsWith (s pre : String) : Bool :=
  pre.data.isPrefixOf s.data

/-- Does `pat` occur as a contiguous sublist of `l`? -/
def containsSub (pat : List Char) : List Char → Bool
  | [] => pat.isEmpty
  | c :: rest => pat.isPrefixOf (c :: rest) || containsSub pat rest

/-- JavaScript `String.prototype.includes`. -/
def jsIncludes (s pat : String) : Bool :=
  containsSub pat.data s.data

/-- JavaScript `String.prototype.toLowerCase` (ASCII). -/
def jsToLower (s : String) : String :=
  ⟨s.data.map Char.toLower⟩

/-- One fuelled pass of global replacement: fuel bounds the number of examined
positions, so the recursion is structural and kernel-reducible.  `jsReplace`
always supplies enough fuel. -/
def replaceFuel (pat repl : List Char) : Nat → List Char → List Char
  | 0, l => l
  | _ + 1, [] => []
  | fuel + 1, c :: rest =>
    if pat.isPrefixOf (c :: rest) then
      repl ++ replaceFuel pat repl fuel ((c :: rest).drop pat.length)
    else
      c :: replaceFuel pat repl fuel rest

/-- JavaScript `String.prototype.replace` with a global literal pattern
(leftmost, non-overlapping). -/
def jsReplace (s pat repl : String) : String :=
  ⟨replaceFuel pat.data repl.data s.data.length s.data⟩

/-- JavaScript truthiness of an optional string: `undefined` and `""` are
falsy. -/
def truthyStr : Option String → Bool
  | none => false
  | some s => !(s == "")

/-- `t.charAt(0).toUpperCase() + t.slice(1)` for a present string `t`. -/
def capSlice (t : String) : String :=
  match t.data with
  | [] => ""
  | c :: cs => ⟨c.toUpper :: cs⟩

/-! ## Content decoder (`decodeHtml`, `decodeDiagramContent`) -/

/-- `decodeHtml` from the source: the fixed entity-replacement chain, with
`&amp;` run last. -/
def decodeHtml (raw : String) : String :=
  jsReplace (jsReplace (jsReplace (jsReplace (jsReplace (jsReplace
    raw "&lt;" "<") "&gt;" ">") "&quot;" "\"") "&#39;" "'") "&nbsp;" " ") "&amp;" "&"

/-- `decodeDiagramContent` from the source.

`inflateB64` models `pako.inflateRaw(b64ToUint8 ·, {to: string})` (base64
decode followed by raw inflate; `none` models a thrown exception) and
`uriDecode` models `decodeURIComponent` (`none` models a thrown exception). -/
def acceptXml (xml : String) : Option String :=
  if jsStartsWith (jsTrim xml) "<" then some xml else none

def decodeDiagramContent (inflateB64 uriDecode : String → Option String)
    (data : String) : String :=
  if data == "" then ""
  else if jsStartsWith (jsTrim data) "<" then data
  else
    -- 1. base64 → inflateRaw → URI decode
    match (inflateB64 data).bind fun inflated =>
        (uriDecode inflated).bind acceptXml with
    | some xml => xml
    | none =>
      -- 2. URI decode, then base64 → inflateRaw → URI decode
      match (uriDecode data).bind fun uriDecoded =>
          (inflateB64 uriDecoded).bind fun inflated =>
            (uriDecode inflated).bind acceptXml with
      | some xml => xml
      | none =>
        -- 3. HTML-escaped XML
        let htmlDecoded := decodeHtml data
        if jsStartsWith (jsTrim htmlDecoded) "<" then htmlDecoded else ""

/-! ## Node classifier (`detectShapeType`, `analyzeNodeContent`,
`determineNodeType`) -/

/-- `detectShapeType` from the source. -/
def detectShapeType (style : String) : String :=
  let lowerStyle := jsToLower style
  if jsIncludes lowerStyle "ellipse" || jsIncludes lowerStyle "oval" then "oval"
  else if jsIncludes lowerStyle "rhombus" || jsIncludes lowerStyle "diamond" then "diamond"
  else if jsIncludes lowerStyle "parallelogram" then "parallelogram"
  else if jsIncludes lowerStyle "rounded=0" || jsIncludes lowerStyle "whiteSpace=wrap" ||
      jsIncludes lowerStyle "rectangle" ||
      (!jsIncludes lowerStyle "ellipse" && !jsIncludes lowerStyle "rhombus" &&
        !jsIncludes lowerStyle "parallelogram") then "rectangle"
  else "rectangle"

/-- `analyzeNodeContent` from the source. -/
def analyzeNodeContent (value : String) : String :=
  if value == "" then "unknown"
  else
    let lowerValue := jsTrim (jsToLower value)
    if ["start", "begin", "initialize", "init", "launch", "commence", "open"].any
        (fun k => jsIncludes lowerValue k) then "start"
    else if ["end", "stop", "finish", "terminate", "exit", "close", "complete", "done"].any
        (fun k => jsIncludes lowerValue k) then "end"
    else if ["input", "read", "enter", "get", "scan", "prompt", "ask"].any
        (fun k => jsIncludes lowerValue k) then "input"
    else if ["output", "print", "display", "show", "write", "say", "tell"].any
        (fun k => jsIncludes lowerValue k) then "output"
    else if ["if", "while", "for", "check", "test", "compare", "?", "==", "!=", "<", ">",
        "<=", ">="].any (fun k => jsIncludes lowerValue k) then "decision"
    else if ["=", "calculate", "compute", "set", "assign", "update", "increment",
        "decrement", "+", "-", "*", "/"].any (fun k => jsIncludes lowerValue k) then "process"
    else "process"

/-- `determineNodeType` from the source. -/
def determineNodeType (shapeType contentType : String)
    (hasIncoming hasOutgoing : Bool) : String :=
  if shapeType == "oval" then
    if !hasIncoming && hasOutgoing then "start"
    else if hasIncoming && !hasOutgoing then "end"
    else if contentType == "start" || contentType == "end" then contentType
    else if hasIncoming then "end" else "start"
  else if shapeType == "diamond" then "decision"
  else if shapeType == "parallelogram" then
    if contentType == "input" || contentType == "output" then contentType
    else "input"
  else if shapeType == "rectangle" then
    if contentType == "start" && !hasIncoming then "start"
    else if contentType == "end" && !hasOutgoing then "end"
    else if contentType == "decision" then "decision"
    else if contentType == "input" || contentType == "output" then contentType
    else "process"
  else "process"

/-- The classification pipeline applied to one node, exactly as the second
extraction pass composes it:
`determineNodeType (detectShapeType style) (analyzeNodeContent value) …`. -/
def classifyNode (style value : String) (hasIncoming hasOutgoing : Bool) : String :=
  determineNodeType (detectShapeType style) (analyzeNodeContent value)
    hasIncoming hasOutgoing

/-! ## Data model (`FlowchartNode`, `FlowchartEdge`, `FlowchartAnalysis`) -/

/-- Geometry of a vertex cell.  The source stores `parseFloat` of each
attribute (default `'0'`); the numeric interpretation is irrelevant to every
claim, so the embedding keeps the attribute text fed to `parseFloat`. -/
structure Geometry where
  x : String
  y : String
  width : String
  height : String
deriving DecidableEq

/-- `FlowchartNode` from the source.  The optional boolean `vertex?` is
modelled as `Bool` (the code only tests its truthiness; `undefined` and
`false` are both falsy). -/
structure FlowchartNode where
  id : String
  value : Option String := none
  style : Option String := none
  type : Option String := none
  vertex : Bool := false
  parentId : Option String := none
  color : Option String := none
  geometry : Option Geometry := none
deriving DecidableEq

/-- `FlowchartEdge` from the source. -/
structure FlowchartEdge where
  id : String
  value : Option String := none
  style : Option String := none
  edge : Bool := false
  parentId : Option String := none
  sourceId : Option String := none
  targetId : Option String := none
deriving DecidableEq

/-- `FlowchartAnalysis` from the source. -/
structure FlowchartAnalysis where
  totalElements : Nat
  startNodes : List FlowchartNode
  endNodes : List FlowchartNode
  decisionNodes : List FlowchartNode
  processNodes : List FlowchartNode
  ioNodes : List FlowchartNode
  connections : List FlowchartEdge
  issues : List String
deriving DecidableEq

/-! ## Issue strings of `analyzeFlowchart` -/

def noStartMsg : String :=
  "Flowchart must have exactly one start node, but none were found."

def tooManyStartMsg (n : Nat) : String :=
  "Flowchart must have exactly one start node, but " ++ toString n ++ " were found."

def noEndMsg : String :=
  "Flowchart must have at least one end node, but none were found."

/-- `node.value || `(ID: ${node.id})``: the label used in issue strings
(an empty value is falsy). -/
def nodeLabel (n : FlowchartNode) : String :=
  match n.value with
  | some v => if v == "" then "(ID: " ++ n.id ++ ")" else v
  | none => "(ID: " ++ n.id ++ ")"

def disconnectedMsg (n : FlowchartNode) : String :=
  "Node \"" ++ nodeLabel n ++ "\" is disconnected."

def cycleMsg : String :=
  "Potential infinite loop detected in the flowchart."

def decisionMsg (label : String) (k : Nat) : String :=
  "Decision node \"" ++ label ++
    "\" should have at least two outgoing branches, but has " ++ toString k ++ "."

def deadEndMsg (t label : String) : String :=
  capSlice t ++ " node \"" ++ label ++ "\" is a dead end."

/-! ## Cycle detection (`buildGraph`, `detectCycles`) -/

/-- `buildGraph(edges)[id] || []`: the adjacency list of `id`, built from
every edge whose source and target are both truthy. -/
def neighbors (edges : List FlowchartEdge) (id : String) : List String :=
  edges.filterMap fun e =>
    if truthyStr e.sourceId && truthyStr e.targetId && (e.sourceId == some id) then
      e.targetId
    else none

/-- One iteration of the `for (const neighbor of neighbors)` loop inside
`hasCycle`: once a cycle has been found the remaining neighbours are not
examined (the JS function returns early). -/
def hasCycleStep (rec : String → List String → Bool × List String)
    (acc : Bool × List String) (n : String) : Bool × List String :=
  match acc with
  | (true, v) => (true, v)
  | (false, v) => rec n v

/-- `hasCycle(nodeId)` from `detectCycles`, with the shared mutable `visited`
set threaded through and the call-stack-shaped `recursionStack` passed as a
parameter.  The JS recursion terminates because each productive call adds a
new id to `visited`; the fuel makes that termination structural, and
`detectCycles` supplies fuel that is provably never exhausted. -/
def hasCycleFuel (nbrs : String → List String) :
    Nat → String → List String → List String → Bool × List String
  | 0, _, _, visited => (false, visited)
  | fuel + 1, id, stack, visited =>
    if stack.contains id then (true, visited)
    else if visited.contains id then (false, visited)
    else
      (nbrs id).foldl
        (hasCycleStep fun n v => hasCycleFuel nbrs fuel n (id :: stack) v)
        (false, id :: visited)

/-- The `for (const node of nodes)` loop of `detectCycles`: starts a DFS at
every unvisited node id and stops at the first cycle found. -/
def detectCyclesLoop (nbrs : String → List String) (fuel : Nat) :
    List FlowchartNode → List String → List String
  | [], _ => []
  | n :: ns, visited =>
    if visited.contains n.id then detectCyclesLoop nbrs fuel ns visited
    else
      match hasCycleFuel nbrs fuel n.id [] visited with
      | (true, _) => [cycleMsg]
      | (false, v) => detectCyclesLoop nbrs fuel ns v

/-- `detectCycles(nodes, edges)` from the source. -/
def detectCycles (nodes : List FlowchartNode) (edges : List FlowchartEdge) :
    List String :=
  detectCyclesLoop (neighbors edges) (nodes.length + edges.length + 1) nodes []

/-! ## Graph analyzer (`analyzeFlowchart`) -/

/-- `outgoingConnections[id] || 0`: the number of edges whose (truthy) source
is `id`.  The target is *not* required to be present here — this is the count
used by the decision-branch and dead-end checks. -/
def outNum (edges : List FlowchartEdge) (id : String) : Nat :=
  (edges.filter fun e => truthyStr e.sourceId && (e.sourceId == some id)).length

/-- `connectedNodeIds.has(id)`: membership in the set of ids added from every
truthy edge source and every truthy edge target. -/
def connectedB (edges : List FlowchartEdge) (id : String) : Bool :=
  edges.any fun e =>
    (truthyStr e.sourceId && (e.sourceId == some id)) ||
    (truthyStr e.targetId && (e.targetId == some id))

/-- The dead-end check for one candidate node.  When the node dead-ends and
its `type` is `undefined`, the JS template `node.type!.slice(1)` throws a
`TypeError`; the uncaught exception is modelled by `none`. -/
def deadEndIssueFor (outCount : Nat) (n : FlowchartNode) : Option (List String) :=
  if outCount == 0 then
    match n.type with
    | none => none
    | some t => some [deadEndMsg t (nodeLabel n)]
  else some []

/-- Issues from the start-node terminal check. -/
def startIssues (startNodes : List FlowchartNode) : List String :=
  if startNodes.length == 0 then [noStartMsg]
  else if 1 < startNodes.length then [tooManyStartMsg startNodes.length]
  else []

/-- Issues from the end-node terminal check. -/
def endIssues (endNodes : List FlowchartNode) : List String :=
  if endNodes.length == 0 then [noEndMsg] else []

/-- Issues from the disconnected-node check (only run with more than one
node). -/
def discIssues (nodes : List FlowchartNode) (edges : List FlowchartEdge) :
    List String :=
  if 1 < nodes.length then
    nodes.filterMap fun n =>
      if connectedB edges n.id then none else some (disconnectedMsg n)
  else []

/-- Issues from the decision-branch check. -/
def branchIssues (decisionNodes : List FlowchartNode)
    (edges : List FlowchartEdge) : List String :=
  decisionNodes.filterMap fun n =>
    if outNum edges n.id < 2 then some (decisionMsg (nodeLabel n) (outNum edges n.id))
    else none

/-- Issues from the dead-end check over `[...processNodes, ...ioNodes,
...decisionNodes]`, in candidate order; `none` models the `TypeError`
described at `deadEndIssueFor` (the `forEach` stops at the throwing node). -/
def deadEndIssues (edges : List FlowchartEdge) :
    List FlowchartNode → Option (List String)
  | [] => some []
  | n :: ns =>
    match deadEndIssueFor (outNum edges n.id) n with
    | none => none
    | some is =>
      match deadEndIssues edges ns with
      | none => none
      | some rest => some (is ++ rest)

/-- `analyzeFlowchart` from the source.  `none` models both the `null`
return (no elements / zero nodes) and the uncaught dead-end `TypeError`. -/
def analyzeFlowchart
    (elements : Option (List FlowchartNode × List FlowchartEdge)) :
    Option FlowchartAnalysis :=
  match elements with
  | none => none
  | some (nodes, edges) =>
    if nodes.length == 0 then none
    else
      let startNodes := nodes.filter fun n => n.type == some "start"
      let endNodes := nodes.filter fun n => n.type == some "end"
      let decisionNodes := nodes.filter fun n => n.type == some "decision"
      let ioNodes := nodes.filter fun n =>
        n.type == some "input" || n.type == some "output"
      let processNodes := nodes.filter fun n =>
        !(n.type == some "start" || n.type == some "end" ||
          n.type == some "decision" || n.type == some "input" ||
          n.type == some "output")
      match deadEndIssues edges (processNodes ++ ioNodes ++ decisionNodes) with
      | none => none
      | some dead =>
        some {
          totalElements := nodes.length + edges.length
          startNodes := startNodes
          endNodes := endNodes
          decisionNodes := decisionNodes
          processNodes := processNodes
          ioNodes := ioNodes
          connections := edges
          issues := startIssues startNodes ++ endIssues endNodes ++
            discIssues nodes edges ++ detectCycles nodes edges ++
            branchIssues decisionNodes edges ++ dead }

/-! ## XML document model

A lightweight DOM: elements with a tag, attributes and children, plus text
nodes.  `XmlDoc.root` models `document.documentElement` (`none` = no root
element).  `DOMParser.parseFromString` is an external and is passed to the
extractor as an opaque `String → XmlDoc` parameter. -/

inductive XmlNode where
  | elem (tag : String) (attrs : List (String × String)) (children : List XmlNode)
  | text (content : String)

structure XmlDoc where
  root : Option XmlNode

def tagOf : XmlNode → Option String
  | .elem t _ _ => some t
  | .text _ => none

/-- `getAttribute`: `none` models the DOM `null` for an absent attribute. -/
def getAttr (n : XmlNode) (name : String) : Option String :=
  match n with
  | .elem _ attrs _ => (attrs.find? fun p => p.1 == name).map fun p => p.2
  | .text _ => none

mutual
/-- `getElementsByTagName` seen from a node, in document (pre-)order,
including the node itself when it matches. -/
def elemsByTag (tag : String) : XmlNode → List XmlNode
  | .text _ => []
  | .elem t a ch =>
    (if t == tag then [XmlNode.elem t a ch] else []) ++ elemsByTagList tag ch

def elemsByTagList (tag : String) : List XmlNode → List XmlNode
  | [] => []
  | n :: ns => elemsByTag tag n ++ elemsByTagList tag ns
end

/-- `element.getElementsByTagName`: matching descendants, excluding the
element itself. -/
def childElemsByTag (n : XmlNode) (tag : String) : List XmlNode :=
  match n with
  | .elem _ _ ch => elemsByTagList tag ch
  | .text _ => []

/-- `document.getElementsByTagName`: matching elements of the whole document
(the root element included). -/
def docElemsByTag (d : XmlDoc) (tag : String) : List XmlNode :=
  match d.root with
  | none => []
  | some r => elemsByTag tag r

mutual
/-- `node.textContent`: concatenation of all descendant text, in order. -/
def textContentN : XmlNode → String
  | .text s => s
  | .elem _ _ ch => textContentL ch

def textContentL : List XmlNode → String
  | [] => ""
  | n :: ns => textContentN n ++ textContentL ns
end

mutual
/-- The XPath `//text()` snapshot: every text node of the tree, in document
order. -/
def textNodesN : XmlNode → List String
  | .text s => [s]
  | .elem _ _ ch => textNodesL ch

def textNodesL : List XmlNode → List String
  | [] => []
  | n :: ns => textNodesN n ++ textNodesL ns
end

def docTextNodes (d : XmlDoc) : List String :=
  match d.root with
  | none => []
  | some r => textNodesN r

/-! ## `extractFillColor` -/

def isHexDigit (c : Char) : Bool :=
  c.isDigit || ('a' ≤ c && c ≤ 'f') || ('A' ≤ c && c ≤ 'F')

/-- Try to match the capture group `[#]?[0-9a-fA-F]{n}` at the position just
after a literal `fillColor=`. -/
def tryFillCapture (n : Nat) (l : List Char) : Option (List Char) :=
  match l with
  | '#' :: rest =>
    let h := rest.take n
    if h.length == n && h.all isHexDigit then some ('#' :: h) else none
  | _ =>
    let h := l.take n
    if h.length == n && h.all isHexDigit then some h else none

/-- Scan for the regex `fillColor=([#]?[0-9a-fA-F]{n})`, returning the first
capture (start positions tried left to right, as a regex engine does). -/
def scanFill (n : Nat) : List Char → Option (List Char)
  | [] => none
  | c :: rest =>
    if ("fillColor=".data).isPrefixOf (c :: rest) then
      match tryFillCapture n ((c :: rest).drop 10) with
      | some cap => some cap
      | none => scanFill n rest
    else scanFill n rest

/-- `extractFillColor` from the source. -/
def extractFillColor (style : String) : String :=
  if style == "" then "#f0f0f0"
  else
    match scanFill 6 style.data with
    | some cap => if cap.head? == some '#' then ⟨cap⟩ else "#" ++ (⟨cap⟩ : String)
    | none =>
      match scanFill 3 style.data with
      | some cap =>
        let hexColor := if cap.head? == some '#' then cap.drop 1 else cap
        let expanded := (hexColor.map fun c => [c, c]).flatten
        "#" ++ (⟨expanded⟩ : String)
      | none =>
        if jsIncludes style "fillColor=red" then "#ff0000"
        else if jsIncludes style "fillColor=blue" then "#0000ff"
        else if jsIncludes style "fillColor=green" then "#00ff00"
        else if jsIncludes style "fillColor=yellow" then "#ffff00"
        else if jsIncludes style "fillColor=orange" then "#ffa500"
        else if jsIncludes style "fillColor=purple" then "#800080"
        else if jsIncludes style "fillColor=pink" then "#ffc0cb"
        else if jsIncludes style "fillColor=cyan" then "#00ffff"
        else if jsIncludes style "fillColor=white" then "#ffffff"
        else if jsIncludes style "fillColor=black" then "#000000"
        else "#f0f0f0"

/-! ## Element extractor (`extractFlowchartElements`) -/

/-- The per-node record of the first-pass `nodeMap`: the node plus its
incoming/outgoing id sets. -/
structure NodeEntry where
  node : FlowchartNode
  incoming : List String
  outgoing : List String
deriving DecidableEq

/-- `Set.add`: insert once, keeping insertion order. -/
def addToSet (l : List String) (x : String) : List String :=
  if l.contains x then l else l ++ [x]

/-- `Map.set`: overwrite in place if the key exists (keeping its original
insertion position), otherwise append. -/
def mapSet (m : List (String × NodeEntry)) (k : String) (v : NodeEntry) :
    List (String × NodeEntry) :=
  if m.any fun p => p.1 == k then
    m.map fun p => if p.1 == k then (k, v) else p
  else m ++ [(k, v)]

/-- Mutate the entry at `k` if present (`nodeMap.get` returning `undefined`
is a no-op). -/
def mapAdjust (m : List (String × NodeEntry)) (k : String)
    (f : NodeEntry → NodeEntry) : List (String × NodeEntry) :=
  m.map fun p => if p.1 == k then (p.1, f p.2) else p

/-- `cell.getAttribute(name) || undefined`: an absent or empty attribute
becomes `undefined`. -/
def normAttr (cell : XmlNode) (name : String) : Option String :=
  (getAttr cell name).bind fun v => if v == "" then none else some v

/-- `parseFloat(g.getAttribute(a) || '0')` — the attribute text actually fed
to `parseFloat` (absent or empty attribute defaults to `'0'`). -/
def geoAttr (g : XmlNode) (a : String) : String :=
  match getAttr g a with
  | some s => if s == "" then "0" else s
  | none => "0"

/-- The effective `value` of a cell after the MathML handling: when the raw
value contains `<math`, it is re-parsed and, if any `mn` elements are found,
replaced by the concatenation of their text content. -/
def effValue (parseXml : String → XmlDoc) (value0 : Option String) :
    Option String :=
  match value0 with
  | none => none
  | some v =>
    if jsIncludes v "<math" then
      let mathNodes := docElemsByTag (parseXml v) "mn"
      if 0 < mathNodes.length then
        some (String.join (mathNodes.map textContentN))
      else some v
    else some v

/-- The first-pass loop body of `extractFlowchartElements`: one `mxCell` is
classified as vertex or edge, and edges with both endpoints present update
the incoming/outgoing sets of the (already seen) endpoint entries. -/
def processCell (parseXml : String → XmlDoc)
    (st : List (String × NodeEntry) × List FlowchartEdge) (cell : XmlNode) :
    List (String × NodeEntry) × List FlowchartEdge :=
  let nodeMap := st.1
  let edges := st.2
  match getAttr cell "id" with
  | none => st
  | some id =>
    if id == "" then st
    else
      let value := effValue parseXml (normAttr cell "value")
      let style := normAttr cell "style"
      let parentId := normAttr cell "parent"
      if getAttr cell "vertex" == some "1" then
        let geometry := (childElemsByTag cell "mxGeometry").head?.map fun g =>
          { x := geoAttr g "x", y := geoAttr g "y",
            width := geoAttr g "width", height := geoAttr g "height" : Geometry }
        let node : FlowchartNode :=
          { id := id, value := value, style := style, type := none,
            vertex := true, parentId := parentId,
            color := some (extractFillColor (style.getD "")),
            geometry := geometry }
        (mapSet nodeMap id { node := node, incoming := [], outgoing := [] }, edges)
      else if getAttr cell "edge" == some "1" then
        let sourceId := normAttr cell "source"
        let targetId := normAttr cell "target"
        let edge : FlowchartEdge :=
          { id := id, value := value, style := style, edge := true,
            parentId := parentId, sourceId := sourceId, targetId := targetId }
        let edges' := edges ++ [edge]
        match sourceId, targetId with
        | some s, some t =>
          let m1 := mapAdjust nodeMap s fun e =>
            { e with outgoing := addToSet e.outgoing t }
          let m2 := mapAdjust m1 t fun e =>
            { e with incoming := addToSet e.incoming s }
          (m2, edges')
        | _, _ => (nodeMap, edges')
      else st

/-- The second pass of `extractFlowchartElements`: container/label/empty
cells are skipped and every surviving node gets its classified type. -/
def secondPass (entries : List (String × NodeEntry)) : List FlowchartNode :=
  entries.filterMap fun p =>
    let n := p.2.node
    if n.parentId == some "0" || (n.parentId == some "1" && !n.vertex) then none
    else if truthyStr n.style && jsIncludes (n.style.getD "") "text;html=1" then none
    else if (!truthyStr n.value || jsTrim (n.value.getD "") == "") &&
        (truthyStr n.style && !jsIncludes (n.style.getD "") "group") then none
    else
      some { n with type := some (classifyNode (n.style.getD "") (n.value.getD "")
        (!p.2.incoming.isEmpty) (!p.2.outgoing.isEmpty)) }

/-- The fallback decoding scan: when the document holds no `mxCell`, every
text span longer than 50 characters is run through the decoder and re-parsed
until one attempt yields at least one cell.  A successful decode replaces the
working document even when it yields no cells (the source checks the cell
count only for the `break`). -/
def fallbackLoop (parseXml : String → XmlDoc)
    (inflateB64 uriDecode : String → Option String) :
    List String → XmlDoc → XmlDoc
  | [], wd => wd
  | t :: ts, wd =>
    if 50 < (jsTrim t).data.length then
      let decoded := decodeDiagramContent inflateB64 uriDecode (jsTrim t)
      if decoded == "" then fallbackLoop parseXml inflateB64 uriDecode ts wd
      else
        let wd' := parseXml decoded
        if 0 < (docElemsByTag wd' "mxCell").length then wd'
        else fallbackLoop parseXml inflateB64 uriDecode ts wd'
    else fallbackLoop parseXml inflateB64 uriDecode ts wd

/-- The `mxfile` unwrap step of `extractFlowchartElements`: when the root is
an `mxfile` wrapper, the first `diagram` element's nonempty text content is
decoded and re-parsed; `none` models the two `null` returns of that branch
(content failed to decode / decoded XML has a parser error). -/
def mxfileStep (parseXml : String → XmlDoc)
    (inflateB64 uriDecode : String → Option String) (doc : XmlDoc)
    (root : XmlNode) : Option XmlDoc :=
  if tagOf root == some "mxfile" then
    match (docElemsByTag doc "diagram").head? with
    | some diagramNode =>
      let diagramContent := textContentN diagramNode
      if diagramContent == "" then some doc
      else
        let decodedXml :=
          decodeDiagramContent inflateB64 uriDecode diagramContent
        if decodedXml == "" then none
        else
          let wd := parseXml decodedXml
          if 0 < (docElemsByTag wd "parsererror").length then none
          else some wd
    | none => some doc
  else some doc

/-- `extractFlowchartElements` from the source.  `parseXml` models
`DOMParser.parseFromString(·, 'text/xml')`; `inflateB64`/`uriDecode` are the
decoder externals.  `none` models the `null` returns (null document, missing
root element, and the failing `mxfile` unwrap paths). -/
def extractFlowchartElements (parseXml : String → XmlDoc)
    (inflateB64 uriDecode : String → Option String) (xmlDoc : Option XmlDoc) :
    Option (List FlowchartNode × List FlowchartEdge) :=
  match xmlDoc with
  | none => none
  | some doc =>
    match doc.root with
    | none => none
    | some root =>
      match mxfileStep parseXml inflateB64 uriDecode doc root with
      | none => none
      | some wd0 =>
        let wd1 :=
          if (docElemsByTag wd0 "mxCell").length == 0 then
            fallbackLoop parseXml inflateB64 uriDecode (docTextNodes wd0) wd0
          else wd0
        let finalCells := docElemsByTag wd1 "mxCell"
        let firstPass := finalCells.foldl (processCell parseXml) ([], [])
        some (secondPass firstPass.1, firstPass.2)

/-- The failing `mxfile` unwrap path of `extractFlowchartElements`: the root
is an `mxfile` wrapper, its first `diagram` element has nonempty text
content, and that content either fails to decode or re-parses with a parser
error. -/
def mxfileBadUnwrap (parseXml : String → XmlDoc)
    (inflateB64 uriDecode : String → Option String) (doc : XmlDoc) : Prop :=
  ∃ root dnode, doc.root = some root ∧ tagOf root = some "mxfile" ∧
    (docElemsByTag doc "diagram").head? = some dnode ∧
    textContentN dnode ≠ "" ∧
    (decodeDiagramContent inflateB64 uriDecode (textContentN dnode) = "" ∨
      0 < (docElemsByTag (parseXml (decodeDiagramContent inflateB64 uriDecode
        (textContentN dnode))) "parsererror").length)

/-! ## Auxiliary notions used by the theorems -/

/-- The last four characters of a string (reversed): a cheap fingerprint that
separates the analyzer's issue-string families from each other. -/
def rev4 (s : String) : List Char := s.data.reverse.take 4

/-- The second-to-last character of a string. -/
def sndLast (s : String) : Option Char := (s.data.reverse.drop 1).head?

/-- The edge relation of the cycle-detection graph: `EdgeRel edges a b` holds
when `buildGraph edges` has an arc from `a` to `b` (an edge with truthy source
`a` and truthy target `b`). -/
def EdgeRel (edges : List FlowchartEdge) (a b : String) : Prop :=
  b ∈ neighbors edges a

/-- `a` can reach `b` in the cycle-detection graph. -/
def Reaches (edges : List FlowchartEdge) (a b : String) : Prop :=
  Relation.ReflTransGen (EdgeRel edges) a b

/-- `a` lies on a directed cycle of the cycle-detection graph. -/
def OnCycle (edges : List FlowchartEdge) (a : String) : Prop :=
  Relation.TransGen (EdgeRel edges) a a

/-- DFS invariant: every visited id off the stack has all its successors
visited and off the stack. -/
def Closed (nbrs : String → List String) (V S : List String) : Prop :=
  ∀ v, V.contains v = true → S.contains v = false →
    ∀ w ∈ nbrs v, V.contains w = true ∧ S.contains w = false

/-- DFS invariant: no visited id off the stack lies on a cycle. -/
def NoCyc (nbrs : String → List String) (V S : List String) : Prop :=
  ∀ v, V.contains v = true → S.contains v = false →
    ¬ Relation.TransGen (fun a b => b ∈ nbrs a) v v

/-- Every id the DFS can ever insert into `visited`: the listed node ids plus
the targets of the graph edges. -/
def idUniverse (nodes : List FlowchartNode) (edges : List FlowchartEdge) :
    List String :=
  (nodes.map (fun n => n.id) ++ edges.filterMap fun e =>
    if truthyStr e.sourceId && truthyStr e.targetId then e.targetId else none).dedup

/-- How many universe ids are still unvisited (the DFS recursion measure). -/
def slack (U V : List String) : Nat :=
  (U.filter fun u => !V.contains u).length

/-! ## Concrete fixtures for witnesses and counterexamples -/

def endNodeCex : FlowchartNode := { id := "e", value := some "End", type := some "end" }

/-- The analysis produced for the single-end-node graph `[endNodeCex]`. -/
def anaC2 : FlowchartAnalysis :=
  { totalElements := 1, startNodes := [], endNodes := [endNodeCex],
    decisionNodes := [], processNodes := [], ioNodes := [], connections := [],
    issues := [noStartMsg] }

def nACex : FlowchartNode := { id := "A", value := some "a1", type := some "process" }
def nBCex : FlowchartNode := { id := "B", value := some "b1", type := some "process" }
def nCCex : FlowchartNode := { id := "C", value := some "c1", type := some "process" }
def eABCex : FlowchartEdge := { id := "ab", edge := true, sourceId := some "A", targetId := some "B" }
def eBCCex : FlowchartEdge := { id := "bc", edge := true, sourceId := some "B", targetId := some "C" }
def eCACex : FlowchartEdge := { id := "ca", edge := true, sourceId := some "C", targetId := some "A" }

/-- The analysis produced for the three-node cycle `A → B → C → A`. -/
def anaC3 : FlowchartAnalysis :=
  { totalElements := 6, startNodes := [], endNodes := [], decisionNodes := [],
    processNodes := [nACex, nBCex, nCCex], ioNodes := [],
    connections := [eABCex, eBCCex, eCACex],
    issues := [noStartMsg, noEndMsg, cycleMsg] }

/-- C4 counterexample: a decision node whose two outgoing edges both lack a
target. -/
def dNodeCex : FlowchartNode := { id := "d", value := some "if x", type := some "decision" }
def e1Cex : FlowchartEdge := { id := "1", edge := true, sourceId := some "d" }
def e2Cex : FlowchartEdge := { id := "2", edge := true, sourceId := some "d" }

def dWCex : FlowchartNode := { id := "d", value := some "x > 1", type := some "decision" }
def pWCex : FlowchartNode := { id := "p", value := some "calc", type := some "process" }
def eDPCex : FlowchartEdge := { id := "1", edge := true, sourceId := some "d", targetId := some "p" }

/-- The analysis produced for `[dWCex, pWCex]` with the single edge
`d → p`. -/
def anaC4 : FlowchartAnalysis :=
  { totalElements := 3, startNodes := [], endNodes := [], decisionNodes := [dWCex],
    processNodes := [pWCex], ioNodes := [], connections := [eDPCex],
    issues := [noStartMsg, noEndMsg, decisionMsg "x > 1" 1,
      deadEndMsg "process" "calc"] }

/-- C6 counterexample: an `mxfile` document whose diagram payload decodes to
nothing. -/
def mxfileDocCex : XmlDoc :=
  ⟨some (.elem "mxfile" [] [.elem "diagram" [] [.text "garbage"]])⟩

/-- C7 counterexample: a vertex cell with no value attribute and no style
attribute. -/
def plainDocCex : XmlDoc :=
  ⟨some (.elem "mxGraphModel" []
    [.elem "mxCell" [("id", "a"), ("parent", "1"), ("vertex", "1")] []])⟩

/-- The node `extractFlowchartElements` returns for `plainDocCex`. -/
def bareNodeCex : FlowchartNode :=
  { id := "a", value := none, style := none, type := some "process",
    vertex := true, parentId := some "1", color := some "#f0f0f0",
    geometry := none }

/-- C7 witness input: one empty styled cell (skipped) and one labelled cell
(kept). -/
def skipDocCex : XmlDoc :=
  ⟨some (.elem "mxGraphModel" []
    [.elem "mxCell" [("id", "s"), ("parent", "1"), ("vertex", "1"),
        ("style", "rounded=0;")] [],
      .elem "mxCell" [("id", "k"), ("parent", "1"), ("vertex", "1"),
        ("value", "Start")] []])⟩

/-- The node kept from `skipDocCex`. -/
def keptNodeCex : FlowchartNode :=
  { id := "k", value := some "Start", style := none, type := some "start",
    vertex := true, parentId := some "1", color := some "#f0f0f0",
    geometry := none }

/-! ## C1, C9: the content decoder -/

theorem acceptXml_eq_some {xml y : String} (h : acceptXml xml = some y) :
    y = xml ∧ jsStartsWith (jsTrim y) "<" = true := by
  unfold acceptXml at h
  split at h
  · cases h
    exact ⟨rfl, by assumption⟩
  · cases h

theorem empty_not_lt : jsStartsWith (jsTrim "") "<" = false := by decide

/-- C1: for every input string whose trimmed form starts with `<`,
`decodeDiagramContent` returns the input unchanged, whatever the decoder
externals do. -/
theorem decode_passthrough (inflateB64 uriDecode : String → Option String)
    (data : String) (h : jsStartsWith (jsTrim data) "<" = true) :
    decodeDiagramContent inflateB64 uriDecode data = data := by
  cases hb : data == "" with
  | true =>
    exact absurd h (by rw [eq_of_beq hb, empty_not_lt]; exact Bool.false_ne_true)
  | false =>
    unfold decodeDiagramContent
    rw [hb, h]
    rfl

/-- Witness for C1 at the concrete input `" <a>"`. -/
theorem decode_passthrough_witness :
    jsStartsWith (jsTrim " <a>") "<" = true ∧
      decodeDiagramContent (fun _ => none) (fun _ => none) " <a>" = " <a>" :=
  ⟨by decide, decode_passthrough (fun _ => none) (fun _ => none) " <a>" (by decide)⟩

/-- C9: for every input string and every behaviour of the decoder externals,
`decodeDiagramContent` returns either the empty string or a string whose
trimmed form starts with `<` (and the embedding is a total function: the
source catches every exception of the fallible steps). -/
theorem decode_invariant (inflateB64 uriDecode : String → Option String)
    (data : String) :
    decodeDiagramContent inflateB64 uriDecode data = "" ∨
      jsStartsWith (jsTrim (decodeDiagramContent inflateB64 uriDecode data)) "<"
        = true := by
  unfold decodeDiagramContent
  cases hb : data == "" with
  | true => left; rfl
  | false =>
    cases h1 : jsStartsWith (jsTrim data) "<" with
    | true => right; simp only [Bool.false_eq_true, if_false, if_pos rfl]; exact h1
    | false =>
      simp only [Bool.false_eq_true, if_false]
      split
      case _ xml hx =>
        rcases Option.bind_eq_some.mp hx with ⟨inflated, _, hx2⟩
        rcases Option.bind_eq_some.mp hx2 with ⟨xml', _, hx3⟩
        right
        exact (acceptXml_eq_some hx3).2
      case _ =>
        split
        case _ xml hx =>
          rcases Option.bind_eq_some.mp hx with ⟨ud, _, hx2⟩
          rcases Option.bind_eq_some.mp hx2 with ⟨inflated, _, hx3⟩
          rcases Option.bind_eq_some.mp hx3 with ⟨xml', _, hx4⟩
          right
          exact (acceptXml_eq_some hx4).2
        case _ =>
          cases h3 : jsStartsWith (jsTrim (decodeHtml data)) "<" with
          | true => right; simp only [h3, if_pos rfl]; exact h3
          | false => left; simp [h3]

/-! ## C5: final type resolution for oval shapes -/

/-- C5: for a node whose style maps to the `oval` shape bucket, the final
classified type follows topology first (`start` for source-only, `end` for
sink-only), then a content-derived `start`/`end`, then defaults on whether
any incoming edge exists. -/
theorem oval_type_resolution (style value : String)
    (hasIncoming hasOutgoing : Bool) (h : detectShapeType style = "oval") :
    classifyNode style value hasIncoming hasOutgoing =
      (if hasIncoming = false ∧ hasOutgoing = true then "start"
       else if hasIncoming = true ∧ hasOutgoing = false then "end"
       else if analyzeNodeContent value = "start" ∨ analyzeNodeContent value = "end"
         then analyzeNodeContent value
       else if hasIncoming = true then "end" else "start") := by
  unfold classifyNode
  rw [h]
  cases hasIncoming <;> cases hasOutgoing <;> simp [determineNodeType]

/-- Witness for C5: an ellipse-styled node with both an incoming and an
outgoing edge and non-terminal content is classified `end`. -/
theorem oval_type_resolution_witness :
    detectShapeType "ellipse" = "oval" ∧
      classifyNode "ellipse" "hello?" true true = "end" :=
  ⟨by decide,
    (oval_type_resolution "ellipse" "hello?" true true (by decide)).trans (by decide)⟩

/-! ## Issue-string fingerprints

The analyzer's issue strings embed arbitrary node labels, so two issue
strings are separated by their constant tails (`rev4`) rather than by full
comparison. -/

theorem ne_of_rev4 {s t : String} (h : rev4 s ≠ rev4 t) : s ≠ t :=
  fun he => h (by rw [he])

theorem rev4_append (s t : String) (h : 4 ≤ t.data.length) :
    rev4 (s ++ t) = rev4 t := by
  unfold rev4
  rw [String.data_append, List.reverse_append,
    List.take_append_of_le_length (by simpa using h)]

theorem rev4_disconnectedMsg (n : FlowchartNode) :
    rev4 (disconnectedMsg n) = ['.', 'd', 'e', 't'] := by
  simp only [disconnectedMsg]
  rw [rev4_append _ _ (by decide)]
  decide

theorem rev4_deadEndMsg (t label : String) :
    rev4 (deadEndMsg t label) = ['.', 'd', 'n', 'e'] := by
  simp only [deadEndMsg]
  rw [rev4_append _ _ (by decide)]
  decide

theorem rev4_decisionMsg0 (label : String) :
    rev4 (decisionMsg label 0) = ['.', '0', ' ', 's'] := by
  simp only [decisionMsg]
  rw [String.append_assoc, String.append_assoc, rev4_append _ _ (by decide)]
  decide

theorem rev4_decisionMsg1 (label : String) :
    rev4 (decisionMsg label 1) = ['.', '1', ' ', 's'] := by
  simp only [decisionMsg]
  rw [String.append_assoc, String.append_assoc, rev4_append _ _ (by decide)]
  decide

theorem rev4_tooManyStartMsg (n : Nat) :
    rev4 (tooManyStartMsg n) = ['.', 'd', 'n', 'u'] := by
  simp only [tooManyStartMsg]
  rw [rev4_append _ _ (by decide)]
  decide

/-! ## Shapes of the analyzer's issue blocks -/

theorem mem_startIssues {st : List FlowchartNode} {s : String}
    (h : s ∈ startIssues st) :
    s = noStartMsg ∨ s = tooManyStartMsg st.length := by
  unfold startIssues at h
  split at h
  · left; simpa using h
  · split at h
    · right; simpa using h
    · cases h

theorem mem_endIssues {en : List FlowchartNode} {s : String}
    (h : s ∈ endIssues en) : s = noEndMsg := by
  unfold endIssues at h
  split at h
  · simpa using h
  · cases h

theorem mem_discIssues {nodes : List FlowchartNode} {edges : List FlowchartEdge}
    {s : String} (h : s ∈ discIssues nodes edges) :
    ∃ n, s = disconnectedMsg n := by
  unfold discIssues at h
  split at h
  · rcases List.mem_filterMap.mp h with ⟨n, _, hf⟩
    split at hf
    · cases hf
    · exact ⟨n, (Option.some.inj hf).symm⟩
  · cases h

theorem detectCyclesLoop_shape (nbrs : String → List String) (fuel : Nat)
    (ns : List FlowchartNode) (v : List String) :
    detectCyclesLoop nbrs fuel ns v = [] ∨
      detectCyclesLoop nbrs fuel ns v = [cycleMsg] := by
  induction ns generalizing v with
  | nil => left; rfl
  | cons n ns ih =>
    unfold detectCyclesLoop
    split
    · exact ih v
    · split
      · right; rfl
      · exact ih _

theorem mem_detectCycles {nodes : List FlowchartNode}
    {edges : List FlowchartEdge} {s : String}
    (h : s ∈ detectCycles nodes edges) : s = cycleMsg := by
  unfold detectCycles at h
  rcases detectCyclesLoop_shape (neighbors edges) _ nodes [] with he | he <;>
    rw [he] at h
  · cases h
  · simpa using h

theorem mem_branchIssues {dec : List FlowchartNode} {edges : List FlowchartEdge}
    {s : String} (h : s ∈ branchIssues dec edges) :
    ∃ n ∈ dec, outNum edges n.id < 2 ∧
      s = decisionMsg (nodeLabel n) (outNum edges n.id) := by
  unfold branchIssues at h
  rcases List.mem_filterMap.mp h with ⟨n, hn, hf⟩
  split at hf
  · exact ⟨n, hn, by assumption, (Option.some.inj hf).symm⟩
  · cases hf

theorem mem_deadEndIssues {edges : List FlowchartEdge}
    {cands : List FlowchartNode} {l : List String} {s : String}
    (h : deadEndIssues edges cands = some l) (hs : s ∈ l) :
    ∃ t label, s = deadEndMsg t label := by
  induction cands generalizing l with
  | nil =>
    cases h
    cases hs
  | cons n ns ih =>
    unfold deadEndIssues at h
    split at h
    · cases h
    case _ is his =>
      split at h
      · cases h
      case _ rest hrest =>
        cases h
        rcases List.mem_append.mp hs with h1 | h2
        · unfold deadEndIssueFor at his
          split at his
          · split at his
            · cases his
            case _ t ht =>
              cases his
              exact ⟨t, nodeLabel n, by simpa using h1⟩
          · cases his
            cases h1
        · exact ih hrest h2

/-! ## The analyzer's result, componentwise -/

theorem analyze_spec {nodes : List FlowchartNode} {edges : List FlowchartEdge}
    {a : FlowchartAnalysis} (h : analyzeFlowchart (some (nodes, edges)) = some a) :
    a.startNodes = nodes.filter (fun n => n.type == some "start") ∧
    a.endNodes = nodes.filter (fun n => n.type == some "end") ∧
    a.decisionNodes = nodes.filter (fun n => n.type == some "decision") ∧
    a.ioNodes = nodes.filter (fun n =>
      n.type == some "input" || n.type == some "output") ∧
    a.processNodes = nodes.filter (fun n =>
      !(n.type == some "start" || n.type == some "end" ||
        n.type == some "decision" || n.type == some "input" ||
        n.type == some "output")) ∧
    a.totalElements = nodes.length + edges.length ∧
    a.connections = edges ∧
    ∃ dead,
      deadEndIssues edges (a.processNodes ++ a.ioNodes ++ a.decisionNodes)
        = some dead ∧
      a.issues = startIssues a.startNodes ++ endIssues a.endNodes ++
        discIssues nodes edges ++ detectCycles nodes edges ++
        branchIssues a.decisionNodes edges ++ dead := by
  simp only [analyzeFlowchart] at h
  split at h
  · exact Option.noConfusion h
  · split at h
    · exact Option.noConfusion h
    case _ dead hd =>
      cases Option.some.inj h
      exact ⟨rfl, rfl, rfl, rfl, rfl, rfl, rfl, dead, hd, rfl⟩

theorem countP_eq_zero_of_all_ne {l : List String} {t : String}
    (h : ∀ s ∈ l, s ≠ t) : l.countP (fun s => s == t) = 0 :=
  List.countP_eq_zero.mpr fun s hs => by simpa using h s hs

/-! ## C2: terminal checks -/

/-- C2: in every produced analysis, zero start-typed input nodes yield
exactly one no-start issue; more than one yields an issue naming the count;
zero end-typed input nodes yield the missing-end issue; and zero start nodes
with one end node yield no issue about end nodes. -/
theorem terminal_checks (nodes : List FlowchartNode) (edges : List FlowchartEdge)
    (a : FlowchartAnalysis) (h : analyzeFlowchart (some (nodes, edges)) = some a) :
    ((nodes.filter fun n => n.type == some "start").length = 0 →
      a.issues.countP (fun s => s == noStartMsg) = 1) ∧
    (1 < (nodes.filter fun n => n.type == some "start").length →
      tooManyStartMsg (nodes.filter fun n => n.type == some "start").length
        ∈ a.issues) ∧
    ((nodes.filter fun n => n.type == some "end").length = 0 →
      noEndMsg ∈ a.issues) ∧
    ((nodes.filter fun n => n.type == some "start").length = 0 ∧
        (nodes.filter fun n => n.type == some "end").length = 1 →
      noEndMsg ∉ a.issues) := by
  obtain ⟨hs, he, -, -, -, -, -, dead, hd, hiss⟩ := analyze_spec h
  rw [← hs, ← he]
  refine ⟨?_, ?_, ?_, ?_⟩
  · intro h0
    have hb1 : startIssues a.startNodes = [noStartMsg] := by
      unfold startIssues; rw [h0]; rfl
    rw [hiss, hb1]
    simp only [List.countP_append]
    have z2 : (endIssues a.endNodes).countP (fun s => s == noStartMsg) = 0 :=
      countP_eq_zero_of_all_ne fun s hs' => by rw [mem_endIssues hs']; decide
    have z3 : (discIssues nodes edges).countP (fun s => s == noStartMsg) = 0 :=
      countP_eq_zero_of_all_ne fun s hs' => by
        rcases mem_discIssues hs' with ⟨n, rfl⟩
        exact ne_of_rev4 (by rw [rev4_disconnectedMsg]; decide)
    have z4 : (detectCycles nodes edges).countP (fun s => s == noStartMsg) = 0 :=
      countP_eq_zero_of_all_ne fun s hs' => by rw [mem_detectCycles hs']; decide
    have z5 : (branchIssues a.decisionNodes edges).countP
        (fun s => s == noStartMsg) = 0 :=
      countP_eq_zero_of_all_ne fun s hs' => by
        rcases mem_branchIssues hs' with ⟨n, -, hk, rfl⟩
        rcases (by omega : outNum edges n.id = 0 ∨ outNum edges n.id = 1) with h0' | h1'
        · rw [h0']; exact ne_of_rev4 (by rw [rev4_decisionMsg0]; decide)
        · rw [h1']; exact ne_of_rev4 (by rw [rev4_decisionMsg1]; decide)
    have z6 : dead.countP (fun s => s == noStartMsg) = 0 :=
      countP_eq_zero_of_all_ne fun s hs' => by
        rcases mem_deadEndIssues hd hs' with ⟨t, lb, rfl⟩
        exact ne_of_rev4 (by rw [rev4_deadEndMsg]; decide)
    rw [z2, z3, z4, z5, z6]
    decide
  · intro h1
    have h0 : (a.startNodes.length == 0) = false := by
      simp only [beq_eq_false_iff_ne, ne_eq]; omega
    have hb1 : startIssues a.startNodes =
        [tooManyStartMsg a.startNodes.length] := by
      simp [startIssues, h0, h1]
    rw [hiss, hb1]
    simp [List.mem_append]
  · intro h0
    have hb2 : endIssues a.endNodes = [noEndMsg] := by
      unfold endIssues; rw [h0]; rfl
    rw [hiss, hb2]
    simp [List.mem_append]
  · rintro ⟨h0, h1⟩
    have hb1 : startIssues a.startNodes = [noStartMsg] := by
      unfold startIssues; rw [h0]; rfl
    have hb2 : endIssues a.endNodes = [] := by
      unfold endIssues; rw [h1]; rfl
    rw [hiss, hb1, hb2]
    intro hmem
    simp only [List.mem_append, List.mem_singleton, List.not_mem_nil,
      or_false, false_or] at hmem
    rcases hmem with (((hm | hm) | hm) | hm) | hm
    · exact absurd hm (by decide)
    · rcases mem_discIssues hm with ⟨n, he2⟩
      exact ne_of_rev4 (by rw [rev4_disconnectedMsg]; decide) he2.symm
    · exact absurd (mem_detectCycles hm) (by decide)
    · rcases mem_branchIssues hm with ⟨n, -, hk, he2⟩
      rcases (by omega : outNum edges n.id = 0 ∨ outNum edges n.id = 1) with h0' | h1'
      · rw [h0'] at he2
        exact ne_of_rev4 (by rw [rev4_decisionMsg0]; decide) he2.symm
      · rw [h1'] at he2
        exact ne_of_rev4 (by rw [rev4_decisionMsg1]; decide) he2.symm
    · rcases mem_deadEndIssues hd hm with ⟨t, lb, he2⟩
      exact ne_of_rev4 (by rw [rev4_deadEndMsg]; decide) he2.symm

/-- Witness for C2: a single end node, no start node. -/
theorem terminal_checks_witness :
    analyzeFlowchart (some ([endNodeCex], [])) = some anaC2 ∧
      anaC2.issues.countP (fun s => s == noStartMsg) = 1 ∧
      noEndMsg ∉ anaC2.issues :=
  ⟨by decide,
    (terminal_checks [endNodeCex] [] anaC2 (by decide)).1 (by decide),
    (terminal_checks [endNodeCex] [] anaC2 (by decide)).2.2.2
      ⟨by decide, by decide⟩⟩

/-! ## C10: totals and the bucket partition -/

/-- C10: every produced analysis counts `totalElements` as nodes plus edges,
and each input node lands in exactly one of the five buckets, with a missing
or unknown type landing in the process bucket. -/
theorem bucket_partition (nodes : List FlowchartNode) (edges : List FlowchartEdge)
    (a : FlowchartAnalysis) (h : analyzeFlowchart (some (nodes, edges)) = some a) :
    a.totalElements = nodes.length + edges.length ∧
    ∀ n ∈ nodes,
      (n ∈ a.startNodes ↔ n.type = some "start") ∧
      (n ∈ a.endNodes ↔ n.type = some "end") ∧
      (n ∈ a.decisionNodes ↔ n.type = some "decision") ∧
      (n ∈ a.ioNodes ↔ (n.type = some "input" ∨ n.type = some "output")) ∧
      (n ∈ a.processNodes ↔
        (n.type ≠ some "start" ∧ n.type ≠ some "end" ∧
          n.type ≠ some "decision" ∧ n.type ≠ some "input" ∧
          n.type ≠ some "output")) ∧
      (n ∈ a.startNodes ∨ n ∈ a.endNodes ∨ n ∈ a.decisionNodes ∨
        n ∈ a.ioNodes ∨ n ∈ a.processNodes) ∧
      ((n.type = none ∨ ∀ t, n.type = some t →
          t ∉ (["start", "end", "decision", "process", "input", "output"] :
            List String)) → n ∈ a.processNodes) := by
  obtain ⟨hs, he, hdec, hio, hproc, htot, -, -, -, -⟩ := analyze_spec h
  refine ⟨htot, ?_⟩
  intro n hn
  have mS : n ∈ a.startNodes ↔ n.type = some "start" := by
    rw [hs]; simp [List.mem_filter, hn]
  have mE : n ∈ a.endNodes ↔ n.type = some "end" := by
    rw [he]; simp [List.mem_filter, hn]
  have mD : n ∈ a.decisionNodes ↔ n.type = some "decision" := by
    rw [hdec]; simp [List.mem_filter, hn]
  have mIO : n ∈ a.ioNodes ↔ (n.type = some "input" ∨ n.type = some "output") := by
    rw [hio]; simp [List.mem_filter, hn]
  have mP : n ∈ a.processNodes ↔
      (n.type ≠ some "start" ∧ n.type ≠ some "end" ∧ n.type ≠ some "decision" ∧
        n.type ≠ some "input" ∧ n.type ≠ some "output") := by
    rw [hproc]; simp [List.mem_filter, hn]; tauto
  refine ⟨mS, mE, mD, mIO, mP, ?_, ?_⟩
  · rw [mS, mE, mD, mIO, mP]
    tauto
  · rintro (hnone | hall)
    · rw [mP, hnone]
      simp
    · rw [mP]
      refine ⟨?_, ?_, ?_, ?_, ?_⟩ <;>
        exact fun heq => absurd (hall _ heq) (by decide)

/-- Witness for C10 at the single-end-node graph. -/
theorem bucket_partition_witness :
    analyzeFlowchart (some ([endNodeCex], [])) = some anaC2 ∧
      anaC2.totalElements = 1 ∧ endNodeCex ∈ anaC2.endNodes :=
  ⟨by decide,
    ((bucket_partition [endNodeCex] [] anaC2 (by decide)).1).trans (by decide),
    (((bucket_partition [endNodeCex] [] anaC2 (by decide)).2 endNodeCex
      (by decide)).2.1).mpr (by decide)⟩

/-! ## C8: determinism / purity of classification -/

/-- C8: the composition of shape detection, content detection and final type
resolution is a pure function of `(style, value, hasIncoming, hasOutgoing)`:
any two calls with identical arguments return the same type, independent of
call order or other state.  The source functions read no state besides their
arguments, so the embedding is a plain function and determinism is
definitional. -/
theorem classify_deterministic (style value style2 value2 : String)
    (hasIncoming hasOutgoing hasIncoming2 hasOutgoing2 : Bool)
    (hs : style = style2) (hv : value = value2)
    (hi : hasIncoming = hasIncoming2) (ho : hasOutgoing = hasOutgoing2) :
    classifyNode style value hasIncoming hasOutgoing =
      classifyNode style2 value2 hasIncoming2 hasOutgoing2 := by
  rw [hs, hv, hi, ho]

/-- Witness for C8 at a concrete classification. -/
theorem classify_deterministic_witness :
    classifyNode "ellipse" "Start here" false true = "start" ∧
      classifyNode "ellipse" "Start here" false true =
        classifyNode "ellipse" "Start here" false true :=
  ⟨by decide,
    classify_deterministic "ellipse" "Start here" "ellipse" "Start here"
      false true false true rfl rfl rfl rfl⟩

/-! ## Decimal representations of the outgoing counts

`decisionMsg` embeds `toString k`; separating two decision messages with
different counts needs a few facts about `Nat.repr`. -/

theorem toDigitsCore_suffix (b fuel n : Nat) (acc : List Char) :
    acc <:+ Nat.toDigitsCore b fuel n acc := by
  induction fuel generalizing n acc with
  | zero => exact List.suffix_refl _
  | succ fuel ih =>
    simp only [Nat.toDigitsCore]
    split
    · exact List.suffix_cons _ _
    · exact (List.suffix_cons _ _).trans (ih _ _)

theorem toDigitsCore_digits (fuel n : Nat) (acc : List Char)
    (hacc : ∀ c ∈ acc, c.isDigit = true) :
    ∀ c ∈ Nat.toDigitsCore 10 fuel n acc, c.isDigit = true := by
  induction fuel generalizing n acc with
  | zero => simpa [Nat.toDigitsCore] using hacc
  | succ fuel ih =>
    have hd : (Nat.digitChar (n % 10)).isDigit = true :=
      (by decide : ∀ m, m < 10 → (Nat.digitChar m).isDigit = true) _
        (Nat.mod_lt _ (by omega))
    simp only [Nat.toDigitsCore]
    split
    · intro c hc
      rcases List.mem_cons.mp hc with rfl | hc
      · exact hd
      · exact hacc c hc
    · refine ih _ _ ?_
      intro c hc
      rcases List.mem_cons.mp hc with rfl | hc
      · exact hd
      · exact hacc c hc

theorem repr_digits (k : Nat) : ∀ c ∈ (Nat.repr k).data, c.isDigit = true := by
  have : (Nat.repr k).data = Nat.toDigitsCore 10 (k + 1) k [] := rfl
  rw [this]
  exact toDigitsCore_digits _ _ _ (by simp)

theorem repr_ne_nil (k : Nat) : (Nat.repr k).data ≠ [] := by
  have : (Nat.repr k).data = Nat.toDigitsCore 10 (k + 1) k [] := rfl
  rw [this]
  simp only [Nat.toDigitsCore]
  split
  · simp
  · intro hnil
    have := (toDigitsCore_suffix 10 k (k / 10) [Nat.digitChar (k % 10)]).length_le
    rw [hnil] at this
    simp at this

theorem toDigitsCore_long (b fuel n : Nat) (acc : List Char) (hf : fuel ≠ 0) :
    acc.length < (Nat.toDigitsCore b fuel n acc).length := by
  cases fuel with
  | zero => exact absurd rfl hf
  | succ fuel =>
    simp only [Nat.toDigitsCore]
    split
    · simp
    · calc acc.length < (Nat.digitChar (n % b) :: acc).length := by simp
        _ ≤ _ := (toDigitsCore_suffix b fuel (n / b) _).length_le

theorem repr_eq_single (k : Nat) (c : Char) (h : (Nat.repr k).data = [c]) :
    k < 10 ∧ Nat.digitChar k = c := by
  have hk : Nat.toDigitsCore 10 (k + 1) k [] = [c] := h
  rw [Nat.toDigitsCore] at hk
  split at hk
  case _ h10 =>
    have hlt : k < 10 := (Nat.div_eq_zero_iff (by omega)).mp h10
    rw [Nat.mod_eq_of_lt hlt] at hk
    exact ⟨hlt, List.head_eq_of_cons_eq hk⟩
  case _ h10 =>
    exfalso
    have h2 : k ≠ 0 := fun h0 => h10 (by simp [h0])
    have := toDigitsCore_long 10 k (k / 10) [Nat.digitChar (k % 10)] h2
    rw [hk] at this
    simp at this

theorem repr_inj_lt2 (j k : Nat) (hj : j < 2) (h : Nat.repr k = Nat.repr j) :
    k = j := by
  rcases (by omega : j = 0 ∨ j = 1) with rfl | rfl
  · have hd : (Nat.repr k).data = ['0'] := by rw [h]; rfl
    obtain ⟨hlt, hc⟩ := repr_eq_single k '0' hd
    exact (by decide : ∀ m, m < 10 → (Nat.digitChar m = '0' → m = 0)) k hlt hc
  · have hd : (Nat.repr k).data = ['1'] := by rw [h]; rfl
    obtain ⟨hlt, hc⟩ := repr_eq_single k '1' hd
    exact (by decide : ∀ m, m < 10 → (Nat.digitChar m = '1' → m = 1)) k hlt hc

/-- Tokenisation: two separator-free prefixes followed by the separator are
equal whenever the full lists are. -/
theorem no_sep_append_inj {u v xs ys : List Char} {sep : Char}
    (hu : ∀ c ∈ u, c ≠ sep) (hv : ∀ c ∈ v, c ≠ sep)
    (h : u ++ sep :: xs = v ++ sep :: ys) : u = v := by
  induction u generalizing v with
  | nil =>
    cases v with
    | nil => rfl
    | cons b v =>
      simp only [List.nil_append, List.cons_append, List.cons.injEq] at h
      exact absurd h.1.symm (hv b (by simp))
  | cons a u ih =>
    cases v with
    | nil =>
      simp only [List.cons_append, List.nil_append, List.cons.injEq] at h
      exact absurd h.1 (hu a (by simp))
    | cons b v =>
      simp only [List.cons_append, List.cons.injEq] at h
      obtain ⟨rfl, h2⟩ := h
      rw [ih (fun c hc => hu c (by simp [hc])) (fun c hc => hv c (by simp [hc])) h2]

theorem repr_reverse_no_space (k : Nat) :
    ∀ c ∈ (Nat.repr k).data.reverse, c ≠ ' ' := by
  intro c hc heq
  have hd := repr_digits k c (List.mem_reverse.mp hc)
  rw [heq] at hd
  exact absurd hd (by decide)

/-- Equal decision messages carry equal printed counts. -/
theorem decisionMsg_count_inj {la lb : String} {ja jb : Nat}
    (h : decisionMsg la ja = decisionMsg lb jb) : Nat.repr ja = Nat.repr jb := by
  have hd := congrArg (fun s => s.data.reverse) h
  simp only [decisionMsg, String.data_append, List.reverse_append,
    List.append_assoc] at hd
  obtain ⟨mtail, hM⟩ : ∃ tail,
      ("\" should have at least two outgoing branches, but has ").data.reverse
        = ' ' :: tail := ⟨_, rfl⟩
  rw [hM] at hd
  have hd2 := List.append_cancel_left hd
  simp only [List.cons_append] at hd2
  rw [show ((toString ja : String)).data = (Nat.repr ja).data from rfl,
    show ((toString jb : String)).data = (Nat.repr jb).data from rfl] at hd2
  have := no_sep_append_inj (repr_reverse_no_space ja) (repr_reverse_no_space jb) hd2
  have hrev := List.reverse_injective this
  exact String.ext hrev

theorem decisionMsg_ne_of_counts {la lb : String} {ja jb : Nat}
    (hja : ja < 2) (hjb : 2 ≤ jb) : decisionMsg la ja ≠ decisionMsg lb jb := by
  intro h
  have := repr_inj_lt2 ja jb hja (decisionMsg_count_inj h).symm
  omega

theorem ne_of_sndLast {s t : String} (h : sndLast s ≠ sndLast t) : s ≠ t :=
  fun he => h (by rw [he])

theorem sndLast_append (s t : String) (h : 2 ≤ t.data.length) :
    sndLast (s ++ t) = sndLast t := by
  unfold sndLast
  rw [String.data_append, List.reverse_append,
    List.drop_append_of_le_length
      (show 1 ≤ t.data.reverse.length by rw [List.length_reverse]; omega)]
  rcases hx : t.data.reverse.drop 1 with _ | ⟨c, cs⟩
  · exfalso
    have hlen := congrArg List.length hx
    rw [List.length_drop, List.length_reverse] at hlen
    simp only [List.length_nil] at hlen
    omega
  · rfl

/-- The second-to-last character of a decision message is a decimal digit
(the last digit of the count). -/
theorem sndLast_decisionMsg_digit (label : String) (k : Nat) :
    ∃ c, sndLast (decisionMsg label k) = some c ∧ c.isDigit = true := by
  rcases hx : (Nat.repr k).data.reverse with _ | ⟨c, cs⟩
  · exact absurd (by simpa using congrArg List.reverse hx) (repr_ne_nil k)
  · refine ⟨c, ?_, ?_⟩
    · unfold sndLast decisionMsg
      simp only [String.data_append, List.reverse_append, List.append_assoc]
      rw [show ((toString k : String)).data = (Nat.repr k).data from rfl, hx]
      rfl
    · refine repr_digits k c (List.mem_reverse.mp ?_)
      rw [hx]
      simp

theorem decisionMsg_ne_of_sndLast {t : String} {c0 : Char} (label : String)
    (k : Nat) (ht : sndLast t = some c0) (hc0 : c0.isDigit = false) :
    decisionMsg label k ≠ t := by
  intro heq
  obtain ⟨c, hc, hdig⟩ := sndLast_decisionMsg_digit label k
  rw [heq, ht] at hc
  cases Option.some.inj hc
  rw [hdig] at hc0
  exact Bool.noConfusion hc0

theorem sndLast_disconnectedMsg (n : FlowchartNode) :
    sndLast (disconnectedMsg n) = some 'd' := by
  simp only [disconnectedMsg]
  rw [sndLast_append _ _ (by decide)]
  decide

theorem sndLast_deadEndMsg (t label : String) :
    sndLast (deadEndMsg t label) = some 'd' := by
  simp only [deadEndMsg]
  rw [sndLast_append _ _ (by decide)]
  decide

theorem sndLast_tooManyStartMsg (n : Nat) :
    sndLast (tooManyStartMsg n) = some 'd' := by
  simp only [tooManyStartMsg]
  rw [sndLast_append _ _ (by decide)]
  decide

/-! ## C4: decision branch check -/

/-- The decision-branch block counts one occurrence of a target message per
decision node that emits exactly that message. -/
theorem countP_branchIssues (dec : List FlowchartNode)
    (edges : List FlowchartEdge) (t : String) :
    (branchIssues dec edges).countP (fun s => s == t) =
      (dec.filter fun m => decide (outNum edges m.id < 2) &&
        (decisionMsg (nodeLabel m) (outNum edges m.id) == t)).length := by
  induction dec with
  | nil => rfl
  | cons m ms ih =>
    by_cases hk : outNum edges m.id < 2
    · have hstep : branchIssues (m :: ms) edges =
          decisionMsg (nodeLabel m) (outNum edges m.id) :: branchIssues ms edges := by
        simp [branchIssues, List.filterMap_cons, hk]
      rw [hstep, List.countP_cons, List.filter_cons, ih]
      by_cases hmsg : (decisionMsg (nodeLabel m) (outNum edges m.id) == t) = true
      · simp [hk, hmsg]
      · simp only [Bool.not_eq_true] at hmsg
        simp [hk, hmsg]
    · have hstep : branchIssues (m :: ms) edges = branchIssues ms edges := by
        simp [branchIssues, List.filterMap_cons, hk]
      rw [hstep, List.filter_cons, ih]
      simp [hk]

/-- C4 (amended): for every decision-typed input node of a produced
analysis, with the outgoing count taken over all edges having a (truthy)
source — an edge with a missing target still participates, an edge with a
missing source does not: fewer than two outgoing edges yield an issue naming
the node and that count (occurring once per decision node that emits this
exact message), and two or more outgoing edges yield no such issue. -/
theorem decision_branch_check (nodes : List FlowchartNode)
    (edges : List FlowchartEdge) (a : FlowchartAnalysis) (n : FlowchartNode)
    (h : analyzeFlowchart (some (nodes, edges)) = some a)
    (hn : n ∈ nodes) (htype : n.type = some "decision") :
    (outNum edges n.id < 2 →
      1 ≤ a.issues.countP
          (fun s => s == decisionMsg (nodeLabel n) (outNum edges n.id)) ∧
      a.issues.countP
          (fun s => s == decisionMsg (nodeLabel n) (outNum edges n.id)) =
        ((nodes.filter fun m => m.type == some "decision").filter fun m =>
          decide (outNum edges m.id < 2) &&
          (decisionMsg (nodeLabel m) (outNum edges m.id) ==
            decisionMsg (nodeLabel n) (outNum edges n.id))).length) ∧
    (2 ≤ outNum edges n.id →
      a.issues.countP
          (fun s => s == decisionMsg (nodeLabel n) (outNum edges n.id)) = 0) := by
  obtain ⟨-, -, hdec, -, -, -, -, dead, hd, hiss⟩ := analyze_spec h
  rw [← hdec]
  have hn2 : n ∈ a.decisionNodes := by
    rw [hdec]
    exact List.mem_filter.mpr ⟨hn, by simp [htype]⟩
  constructor
  · intro hk
    have z1 : (startIssues a.startNodes).countP
        (fun s => s == decisionMsg (nodeLabel n) (outNum edges n.id)) = 0 :=
      countP_eq_zero_of_all_ne fun s hs' => by
        rcases mem_startIssues hs' with rfl | rfl <;>
          [skip; rw [tooManyStartMsg]] <;>
          · refine fun he => ?_
            rcases (by omega : outNum edges n.id = 0 ∨ outNum edges n.id = 1)
              with h0' | h1'
            · rw [h0'] at he
              exact ne_of_rev4 (by rw [rev4_decisionMsg0]; first | decide |
                (rw [← tooManyStartMsg, rev4_tooManyStartMsg]; decide)) he.symm
            · rw [h1'] at he
              exact ne_of_rev4 (by rw [rev4_decisionMsg1]; first | decide |
                (rw [← tooManyStartMsg, rev4_tooManyStartMsg]; decide)) he.symm
    have z2 : (endIssues a.endNodes).countP
        (fun s => s == decisionMsg (nodeLabel n) (outNum edges n.id)) = 0 :=
      countP_eq_zero_of_all_ne fun s hs' => by
        rw [mem_endIssues hs']
        rcases (by omega : outNum edges n.id = 0 ∨ outNum edges n.id = 1)
          with h0' | h1'
        · rw [h0']; exact (ne_of_rev4 (by rw [rev4_decisionMsg0]; decide)).symm
        · rw [h1']; exact (ne_of_rev4 (by rw [rev4_decisionMsg1]; decide)).symm
    have z3 : (discIssues nodes edges).countP
        (fun s => s == decisionMsg (nodeLabel n) (outNum edges n.id)) = 0 :=
      countP_eq_zero_of_all_ne fun s hs' => by
        rcases mem_discIssues hs' with ⟨m, rfl⟩
        rcases (by omega : outNum edges n.id = 0 ∨ outNum edges n.id = 1)
          with h0' | h1'
        · rw [h0']
          exact ne_of_rev4 (by rw [rev4_disconnectedMsg, rev4_decisionMsg0]; decide)
        · rw [h1']
          exact ne_of_rev4 (by rw [rev4_disconnectedMsg, rev4_decisionMsg1]; decide)
    have z4 : (detectCycles nodes edges).countP
        (fun s => s == decisionMsg (nodeLabel n) (outNum edges n.id)) = 0 :=
      countP_eq_zero_of_all_ne fun s hs' => by
        rw [mem_detectCycles hs']
        rcases (by omega : outNum edges n.id = 0 ∨ outNum edges n.id = 1)
          with h0' | h1'
        · rw [h0']; exact (ne_of_rev4 (by rw [rev4_decisionMsg0]; decide)).symm
        · rw [h1']; exact (ne_of_rev4 (by rw [rev4_decisionMsg1]; decide)).symm
    have z6 : dead.countP
        (fun s => s == decisionMsg (nodeLabel n) (outNum edges n.id)) = 0 :=
      countP_eq_zero_of_all_ne fun s hs' => by
        rcases mem_deadEndIssues hd hs' with ⟨t, lb, rfl⟩
        rcases (by omega : outNum edges n.id = 0 ∨ outNum edges n.id = 1)
          with h0' | h1'
        · rw [h0']
          exact ne_of_rev4 (by rw [rev4_deadEndMsg, rev4_decisionMsg0]; decide)
        · rw [h1']
          exact ne_of_rev4 (by rw [rev4_deadEndMsg, rev4_decisionMsg1]; decide)
    have hc : a.issues.countP
        (fun s => s == decisionMsg (nodeLabel n) (outNum edges n.id)) =
        (a.decisionNodes.filter fun m => decide (outNum edges m.id < 2) &&
          (decisionMsg (nodeLabel m) (outNum edges m.id) ==
            decisionMsg (nodeLabel n) (outNum edges n.id))).length := by
      rw [hiss]
      simp only [List.countP_append, z1, z2, z3, z4, z6, countP_branchIssues]
      omega
    refine ⟨?_, hc⟩
    · rw [hc]
      have hmem : n ∈ a.decisionNodes.filter fun m =>
          decide (outNum edges m.id < 2) &&
          (decisionMsg (nodeLabel m) (outNum edges m.id) ==
            decisionMsg (nodeLabel n) (outNum edges n.id)) :=
        List.mem_filter.mpr ⟨hn2, by simp [hk]⟩
      have := List.length_pos.mpr (List.ne_nil_of_mem hmem)
      omega
  · intro hk
    rw [hiss]
    simp only [List.countP_append]
    have z1 : (startIssues a.startNodes).countP
        (fun s => s == decisionMsg (nodeLabel n) (outNum edges n.id)) = 0 :=
      countP_eq_zero_of_all_ne fun s hs' => by
        rcases mem_startIssues hs' with rfl | rfl
        · exact (decisionMsg_ne_of_sndLast _ _
            (show sndLast noStartMsg = some 'd' by decide)
            (by decide : ('d').isDigit = false)).symm
        · exact (decisionMsg_ne_of_sndLast _ _
            (sndLast_tooManyStartMsg _) (by decide : ('d').isDigit = false)).symm
    have z2 : (endIssues a.endNodes).countP
        (fun s => s == decisionMsg (nodeLabel n) (outNum edges n.id)) = 0 :=
      countP_eq_zero_of_all_ne fun s hs' => by
        rw [mem_endIssues hs']
        exact (decisionMsg_ne_of_sndLast _ _
          (show sndLast noEndMsg = some 'd' by decide)
          (by decide : ('d').isDigit = false)).symm
    have z3 : (discIssues nodes edges).countP
        (fun s => s == decisionMsg (nodeLabel n) (outNum edges n.id)) = 0 :=
      countP_eq_zero_of_all_ne fun s hs' => by
        rcases mem_discIssues hs' with ⟨m, rfl⟩
        exact (decisionMsg_ne_of_sndLast _ _
          (sndLast_disconnectedMsg m) (by decide : ('d').isDigit = false)).symm
    have z4 : (detectCycles nodes edges).countP
        (fun s => s == decisionMsg (nodeLabel n) (outNum edges n.id)) = 0 :=
      countP_eq_zero_of_all_ne fun s hs' => by
        rw [mem_detectCycles hs']
        exact (decisionMsg_ne_of_sndLast _ _
          (show sndLast cycleMsg = some 't' by decide)
          (by decide : ('t').isDigit = false)).symm
    have z5 : (branchIssues a.decisionNodes edges).countP
        (fun s => s == decisionMsg (nodeLabel n) (outNum edges n.id)) = 0 :=
      countP_eq_zero_of_all_ne fun s hs' => by
        rcases mem_branchIssues hs' with ⟨m, -, hkm, rfl⟩
        exact decisionMsg_ne_of_counts hkm hk
    have z6 : dead.countP
        (fun s => s == decisionMsg (nodeLabel n) (outNum edges n.id)) = 0 :=
      countP_eq_zero_of_all_ne fun s hs' => by
        rcases mem_deadEndIssues hd hs' with ⟨t, lb, rfl⟩
        exact (decisionMsg_ne_of_sndLast _ _
          (sndLast_deadEndMsg t lb) (by decide : ('d').isDigit = false)).symm
    rw [z1, z2, z3, z4, z5, z6]

/-- C4 counterexample: a decision node whose only two outgoing edges lack a
target.  Counted over edges with both endpoints (the claim's notion), its
outgoing count is `0 < 2`, yet the produced issue list holds no
decision-branch issue at all — because the code counts edges by source alone
(yielding `2`). -/
theorem decision_branch_check_cex :
    (analyzeFlowchart (some ([dNodeCex], [e1Cex, e2Cex]))).map
        (fun a => a.decisionNodes) = some [dNodeCex] ∧
    (neighbors [e1Cex, e2Cex] "d").length = 0 ∧
    (analyzeFlowchart (some ([dNodeCex], [e1Cex, e2Cex]))).map
        (fun a => a.issues) = some [noStartMsg, noEndMsg] ∧
    decisionMsg "if x" 0 ∉ [noStartMsg, noEndMsg] := by
  refine ⟨by decide, by decide, by decide, ?_⟩
  decide

/-- Witness for the amended C4: a decision node with exactly one outgoing
edge gets exactly one branch issue. -/
theorem decision_branch_check_witness :
    analyzeFlowchart (some ([dWCex, pWCex], [eDPCex])) = some anaC4 ∧
      anaC4.issues.countP
        (fun s => s == decisionMsg (nodeLabel dWCex) (outNum [eDPCex] dWCex.id))
        = 1 := by
  refine ⟨by decide, ?_⟩
  have h := (decision_branch_check [dWCex, pWCex] [eDPCex] anaC4 dWCex
    (by decide) (by decide) (by decide)).1 (by decide)
  rw [h.2]
  decide

/-! ## C6: when extraction returns null -/

theorem mxfileStep_none_iff (parseXml : String → XmlDoc)
    (inflateB64 uriDecode : String → Option String) (doc : XmlDoc)
    (root : XmlNode) (hr : doc.root = some root) :
    mxfileStep parseXml inflateB64 uriDecode doc root = none ↔
      mxfileBadUnwrap parseXml inflateB64 uriDecode doc := by
  unfold mxfileStep mxfileBadUnwrap
  by_cases ht : (tagOf root == some "mxfile") = true
  · rw [if_pos ht]
    rcases hh : (docElemsByTag doc "diagram").head? with _ | dnode
    · simp only []
      constructor
      · intro h; exact Option.noConfusion h
      · rintro ⟨root', dnode', hr', -, hh', -⟩
        exact Option.noConfusion hh'
    · simp only []
      by_cases hc : (textContentN dnode == "") = true
      · rw [if_pos hc]
        constructor
        · intro h; exact Option.noConfusion h
        · rintro ⟨root', dnode', hr', -, hh', hne, -⟩
          cases Option.some.inj hh'
          exact absurd (eq_of_beq hc) hne
      · rw [if_neg hc]
        by_cases hdec : (decodeDiagramContent inflateB64 uriDecode
            (textContentN dnode) == "") = true
        · rw [if_pos hdec]
          exact ⟨fun _ => ⟨root, dnode, hr, eq_of_beq ht, rfl,
              fun he => hc (by rw [he]; rfl), Or.inl (eq_of_beq hdec)⟩,
            fun _ => rfl⟩
        · rw [if_neg hdec]
          by_cases hpe : 0 < (docElemsByTag (parseXml
              (decodeDiagramContent inflateB64 uriDecode (textContentN dnode)))
              "parsererror").length
          · rw [if_pos hpe]
            exact ⟨fun _ => ⟨root, dnode, hr, eq_of_beq ht, rfl,
                fun he => hc (by rw [he]; rfl), Or.inr hpe⟩,
              fun _ => rfl⟩
          · rw [if_neg hpe]
            constructor
            · intro h; exact Option.noConfusion h
            · rintro ⟨root', dnode', hr', -, hh', -, hbad | hbad⟩
              · cases Option.some.inj hh'
                exact absurd (by rw [hbad]; rfl) hdec
              · cases Option.some.inj hh'
                exact absurd hbad hpe
  · rw [if_neg ht]
    constructor
    · intro h; exact Option.noConfusion h
    · rintro ⟨root', dnode', hr', htag', -⟩
      rw [hr] at hr'
      cases Option.some.inj hr'
      exact absurd (show (tagOf root == some "mxfile") = true by
        rw [htag']; rfl) ht

/-- C6 (amended): `extractFlowchartElements` returns null exactly when the
document is null, has no root element, or is an `mxfile` wrapper whose first
diagram's nonempty content fails to decode or re-parse; in every other case
(an empty but valid diagram included) it returns node and edge collections,
possibly empty. -/
theorem extract_none_iff (parseXml : String → XmlDoc)
    (inflateB64 uriDecode : String → Option String) (xmlDoc : Option XmlDoc) :
    extractFlowchartElements parseXml inflateB64 uriDecode xmlDoc = none ↔
      xmlDoc = none ∨
      (∃ doc, xmlDoc = some doc ∧ doc.root = none) ∨
      (∃ doc, xmlDoc = some doc ∧
        mxfileBadUnwrap parseXml inflateB64 uriDecode doc) := by
  rcases xmlDoc with _ | doc
  · simp [extractFlowchartElements]
  · rcases hr : doc.root with _ | root
    · have hx : extractFlowchartElements parseXml inflateB64 uriDecode
          (some doc) = none := by
        simp [extractFlowchartElements, hr]
      rw [hx]
      constructor
      · intro _
        exact Or.inr (Or.inl ⟨doc, rfl, hr⟩)
      · intro _
        rfl
    · rcases hstep : mxfileStep parseXml inflateB64 uriDecode doc root
        with _ | wd0
      · have hx : extractFlowchartElements parseXml inflateB64 uriDecode
            (some doc) = none := by
          simp [extractFlowchartElements, hr, hstep]
        rw [hx]
        constructor
        · intro _
          exact Or.inr (Or.inr ⟨doc, rfl,
            (mxfileStep_none_iff parseXml inflateB64 uriDecode doc root hr).mp
              hstep⟩)
        · intro _
          rfl
      · constructor
        · intro h
          simp only [extractFlowchartElements, hr, hstep] at h
          exact Option.noConfusion h
        · rintro (h | ⟨doc2, hd, hroot⟩ | ⟨doc2, hd, hbad⟩)
          · exact Option.noConfusion h
          · cases Option.some.inj hd
            rw [hr] at hroot
            exact Option.noConfusion hroot
          · cases Option.some.inj hd
            rw [(mxfileStep_none_iff parseXml inflateB64 uriDecode doc root
              hr).mpr hbad] at hstep
            exact Option.noConfusion hstep

/-- C6 counterexample: a non-null `mxfile` document with a root element for
which extraction nevertheless returns null (its diagram content decodes to
nothing). -/
theorem extract_none_iff_cex :
    extractFlowchartElements (fun _ => ⟨none⟩) (fun _ => none) (fun s => some s)
        (some mxfileDocCex) = none ∧
      mxfileDocCex.root.isSome = true := by
  exact ⟨rfl, rfl⟩

/-! ## C7: the empty-cell skip -/

theorem mem_secondPass {entries : List (String × NodeEntry)} {n : FlowchartNode}
    (h : n ∈ secondPass entries) :
    (n.parentId == some "0" || (n.parentId == some "1" && !n.vertex)) = false ∧
    (truthyStr n.style && jsIncludes (n.style.getD "") "text;html=1") = false ∧
    ((!truthyStr n.value || jsTrim (n.value.getD "") == "") &&
      (truthyStr n.style && !jsIncludes (n.style.getD "") "group")) = false := by
  unfold secondPass at h
  rcases List.mem_filterMap.mp h with ⟨p, -, hf⟩
  simp only [] at hf
  split at hf
  · exact Option.noConfusion hf
  · split at hf
    · exact Option.noConfusion hf
    · split at hf
      · exact Option.noConfusion hf
      case _ h1 h2 h3 =>
        cases Option.some.inj hf
        exact ⟨Bool.not_eq_true _ ▸ Bool.of_not_eq_true h1,
          Bool.of_not_eq_true h2, Bool.of_not_eq_true h3⟩

theorem extract_some_shape {parseXml : String → XmlDoc}
    {inflateB64 uriDecode : String → Option String} {xmlDoc : Option XmlDoc}
    {res : List FlowchartNode × List FlowchartEdge}
    (h : extractFlowchartElements parseXml inflateB64 uriDecode xmlDoc
      = some res) :
    ∃ entries : List (String × NodeEntry), res.1 = secondPass entries := by
  rcases xmlDoc with _ | doc
  · exact absurd h (by simp [extractFlowchartElements])
  · rcases hr : doc.root with _ | root
    · simp only [extractFlowchartElements, hr] at h
      exact Option.noConfusion h
    · rcases hstep : mxfileStep parseXml inflateB64 uriDecode doc root
        with _ | wd0
      · simp only [extractFlowchartElements, hr, hstep] at h
        exact Option.noConfusion h
      · simp only [extractFlowchartElements, hr, hstep] at h
        cases h
        exact ⟨_, rfl⟩

/-- C7 (amended): a vertex cell with neither a non-empty, non-blank value nor
a `group` marker is skipped only when it has a (truthy) style; equivalently,
no returned node is value-blank while carrying a style that lacks `group`. -/
theorem empty_cell_skip (parseXml : String → XmlDoc)
    (inflateB64 uriDecode : String → Option String) (xmlDoc : Option XmlDoc)
    (res : List FlowchartNode × List FlowchartEdge)
    (h : extractFlowchartElements parseXml inflateB64 uriDecode xmlDoc
      = some res) :
    ∀ n ∈ res.1,
      ¬((!truthyStr n.value || jsTrim (n.value.getD "") == "") = true ∧
        (truthyStr n.style && !jsIncludes (n.style.getD "") "group") = true) := by
  obtain ⟨entries, he⟩ := extract_some_shape h
  rw [he]
  intro n hn
  obtain ⟨-, -, h3⟩ := mem_secondPass hn
  rintro ⟨hA, hB⟩
  rw [hA, hB] at h3
  exact Bool.noConfusion h3

/-- C7 counterexample: a vertex cell with no value attribute and no style
attribute — which therefore has neither a non-empty value nor a `group`
marker — is *not* skipped: it is returned (classified as a process node). -/
theorem empty_cell_skip_cex :
    extractFlowchartElements (fun _ => ⟨none⟩) (fun _ => none) (fun s => some s)
        (some plainDocCex) = some ([bareNodeCex], []) ∧
      bareNodeCex.value = none ∧ bareNodeCex.style = none := by
  exact ⟨rfl, rfl, rfl⟩

/-- Witness for the amended C7: a blank, styled, group-less cell is skipped
while a labelled cell is kept, and the kept node fails the skip condition. -/
theorem empty_cell_skip_witness :
    extractFlowchartElements (fun _ => ⟨none⟩) (fun _ => none) (fun s => some s)
        (some skipDocCex) = some ([keptNodeCex], []) ∧
      ¬((!truthyStr keptNodeCex.value ||
          jsTrim (keptNodeCex.value.getD "") == "") = true ∧
        (truthyStr keptNodeCex.style &&
          !jsIncludes (keptNodeCex.style.getD "") "group") = true) :=
  ⟨by decide,
    empty_cell_skip (fun _ => ⟨none⟩) (fun _ => none) (fun s => some s)
      (some skipDocCex) ([keptNodeCex], []) (by decide) keptNodeCex (by decide)⟩

/-! ## C3: cycle detection — basic DFS lemmas -/

theorem contains_iff_mem {l : List String} {x : String} :
    l.contains x = true ↔ x ∈ l := by
  simp [List.contains_iff_exists_mem_beq]

theorem contains_mono {V W : List String} (h : V <:+ W) {x : String}
    (hx : V.contains x = true) : W.contains x = true :=
  contains_iff_mem.mpr (h.subset (contains_iff_mem.mp hx))

theorem contains_cons {l : List String} {a x : String} :
    (a :: l).contains x = ((x == a) || l.contains x) := rfl

theorem slack_le_of_suffix (U : List String) {V W : List String}
    (h : V <:+ W) : slack U W ≤ slack U V := by
  unfold slack
  rw [← List.countP_eq_length_filter, ← List.countP_eq_length_filter]
  refine List.countP_mono_left fun a _ ha => ?_
  simp only [Bool.not_eq_true'] at ha ⊢
  cases hc : V.contains a with
  | false => rfl
  | true => exact absurd (contains_mono h hc) (by rw [ha]; exact Bool.noConfusion)

theorem slack_le_length (U V : List String) : slack U V ≤ U.length :=
  List.length_filter_le _ _

theorem slack_cons (U : List String) (hU : U.Nodup) {V : List String}
    {id : String} (hid : id ∈ U) (hnv : V.contains id = false) :
    slack U (id :: V) + 1 = slack U V := by
  induction U with
  | nil => cases hid
  | cons u us ih =>
    rcases List.nodup_cons.mp hU with ⟨hnotin, hus⟩
    rcases List.mem_cons.mp hid with heq | hid2
    · subst heq
      have hfeq : List.filter (fun v => !(id :: V).contains v) us =
          List.filter (fun v => !V.contains v) us :=
        List.filter_congr fun w hw => by
          have hwne : (w == id) = false := by
            cases hb : w == id with
            | false => rfl
            | true => exact absurd (eq_of_beq hb ▸ hw) hnotin
          rw [contains_cons, hwne]
          rfl
      have h1 : (!(id :: V).contains id) = false := by
        rw [contains_cons]
        simp
      have h2 : (!V.contains id) = true := by rw [hnv]; rfl
      unfold slack
      simp only [List.filter_cons, h1, h2, hfeq]
      simp
    · have hune : (u == id) = false := by
        cases hb : u == id with
        | false => rfl
        | true => exact absurd (eq_of_beq hb ▸ hid2) hnotin
      have hcu : (!(id :: V).contains u) = (!V.contains u) := by
        rw [contains_cons, hune]
        rfl
      have hrec := ih hus hid2
      unfold slack at hrec ⊢
      simp only [List.filter_cons, hcu]
      cases hb : (!V.contains u) with
      | false =>
        rw [if_neg (by simp), if_neg (by simp)]
        exact hrec
      | true =>
        rw [if_pos rfl, if_pos rfl]
        simp only [List.length_cons]
        omega

theorem foldl_step_true (rec : String → List String → Bool × List String)
    (l : List String) (v : List String) :
    l.foldl (hasCycleStep rec) (true, v) = (true, v) := by
  induction l with
  | nil => rfl
  | cons n ns ih => exact ih

theorem foldl_step_suffix {rec : String → List String → Bool × List String}
    (hrec : ∀ n v, v <:+ (rec n v).2) (l : List String) :
    ∀ acc : Bool × List String, acc.2 <:+ (l.foldl (hasCycleStep rec) acc).2 := by
  induction l with
  | nil => intro acc; exact List.suffix_refl _
  | cons n ns ih =>
    rintro ⟨b, v⟩
    cases b
    · exact (hrec n v).trans (ih (rec n v))
    · rw [List.foldl_cons]
      exact ih (true, v)

theorem hasCycleFuel_suffix (nbrs : String → List String) :
    ∀ (fuel : Nat) (id : String) (stack visited : List String),
      visited <:+ (hasCycleFuel nbrs fuel id stack visited).2 := by
  intro fuel
  induction fuel with
  | zero => intro id stack visited; exact List.suffix_refl _
  | succ fuel ih =>
    intro id stack visited
    simp only [hasCycleFuel]
    split
    · exact List.suffix_refl _
    · split
      · exact List.suffix_refl _
      · exact (List.suffix_cons id visited).trans
          (foldl_step_suffix (fun n v => ih n (id :: stack) v) (nbrs id)
            ((false, id :: visited) : Bool × List String))

theorem chain_cycle {nbrs : String → List String} :
    ∀ {x : String} {xs : List String},
      List.Chain' (fun a b => a ∈ nbrs b) (x :: xs) →
      ∀ y ∈ xs, Relation.TransGen (fun a b => b ∈ nbrs a) y x := by
  intro x xs
  induction xs generalizing x with
  | nil => intro _ y hy; cases hy
  | cons z zs ih =>
    intro hch y hy
    rw [List.chain'_cons] at hch
    rcases List.mem_cons.mp hy with rfl | hy2
    · exact Relation.TransGen.single hch.1
    · exact Relation.TransGen.tail (ih hch.2 y hy2) hch.1

theorem foldl_true_exists (rec : String → List String → Bool × List String)
    (l : List String) :
    ∀ acc : Bool × List String, (l.foldl (hasCycleStep rec) acc).1 = true →
      acc.1 = true ∨ ∃ n ∈ l, ∃ v, (rec n v).1 = true := by
  induction l with
  | nil => intro acc h; exact Or.inl h
  | cons n ns ih =>
    rintro ⟨b, v⟩ h
    cases b
    · rcases hb : rec n v with ⟨b2, v2⟩
      have hstep : hasCycleStep rec (false, v) n = (b2, v2) := by
        simp [hasCycleStep, hb]
      rw [List.foldl_cons, hstep] at h
      rcases ih (b2, v2) h with h1 | ⟨m, hm, w, hw⟩
      · cases b2 with
        | false => exact absurd h1 Bool.noConfusion
        | true => exact Or.inr ⟨n, by simp, v, by rw [hb]⟩
      · exact Or.inr ⟨m, by simp [hm], w, hw⟩
    · exact Or.inl rfl

theorem hasCycleFuel_sound (nbrs : String → List String) :
    ∀ (fuel : Nat) (id : String) (stack visited : List String),
      (hasCycleFuel nbrs fuel id stack visited).1 = true →
      List.Chain' (fun a b => a ∈ nbrs b) (id :: stack) →
      ∃ v, Relation.TransGen (fun a b => b ∈ nbrs a) v v := by
  intro fuel
  induction fuel with
  | zero =>
    intro id stack visited h _
    exact absurd h Bool.noConfusion
  | succ fuel ih =>
    intro id stack visited h hch
    simp only [hasCycleFuel] at h
    split at h
    case _ hmem =>
      exact ⟨id, chain_cycle hch id (contains_iff_mem.mp hmem)⟩
    · split at h
      · exact absurd h Bool.noConfusion
      · rcases foldl_true_exists _ (nbrs id) _ h with hacc | ⟨n, hn, v, hv⟩
        · exact absurd hacc Bool.noConfusion
        · exact ih n (id :: stack) v hv (List.chain'_cons.mpr ⟨hn, hch⟩)

theorem detectCyclesLoop_sound (nbrs : String → List String) (fuel : Nat) :
    ∀ (ns : List FlowchartNode) (visited : List String),
      detectCyclesLoop nbrs fuel ns visited ≠ [] →
      ∃ v, Relation.TransGen (fun a b => b ∈ nbrs a) v v := by
  intro ns
  induction ns with
  | nil => intro visited h; exact absurd rfl h
  | cons n ns ih =>
    intro visited h
    unfold detectCyclesLoop at h
    split at h
    · exact ih _ h
    · split at h
      case _ v hv =>
        exact hasCycleFuel_sound nbrs fuel n.id [] visited
          (by rw [hv]) (List.chain'_singleton _)
      case _ v hv =>
        exact ih _ h

/-! ## C3: cycle detection — the DFS completeness invariant -/

theorem reach_in_closed {nbrs : String → List String} {V S : List String}
    (hcl : Closed nbrs V S) {x y : String}
    (h : Relation.ReflTransGen (fun a b => b ∈ nbrs a) x y)
    (hx : V.contains x = true) (hsx : S.contains x = false) :
    V.contains y = true ∧ S.contains y = false := by
  induction h with
  | refl => exact ⟨hx, hsx⟩
  | tail hab hbc ih =>
    obtain ⟨h1, h2⟩ := ih
    exact hcl _ h1 h2 _ hbc

/-- The false-return invariant of the DFS: starting from a closed,
cycle-free visited set, a `false` result extends it to a closed, cycle-free
visited set containing the start id.  The fuel hypothesis guarantees the
fuel is never exhausted. -/
theorem hasCycleFuel_false_inv (nbrs : String → List String) (U : List String)
    (hU : U.Nodup) (hUcl : ∀ x, ∀ w ∈ nbrs x, w ∈ U) :
    ∀ (fuel : Nat) (id : String) (stack visited : List String),
      slack U visited < fuel → id ∈ U →
      Closed nbrs visited stack → NoCyc nbrs visited stack →
      ∀ V', hasCycleFuel nbrs fuel id stack visited = (false, V') →
        visited <:+ V' ∧ V'.contains id = true ∧
          Closed nbrs V' stack ∧ NoCyc nbrs V' stack := by
  intro fuel
  induction fuel with
  | zero =>
    intro id stack visited hslack
    exact absurd hslack (by omega)
  | succ fuel ih =>
    intro id stack visited hslack hidU hcl hnc V' heq
    simp only [hasCycleFuel] at heq
    split at heq
    case _ hmem => exact absurd (congrArg Prod.fst heq) (by simp)
    case _ hmem =>
      split at heq
      case _ hvis =>
        have hV2 := congrArg Prod.snd heq
        simp only [] at hV2
        subst hV2
        exact ⟨List.suffix_refl _, by simpa using hvis, hcl, hnc⟩
      case _ hvis =>
        have hvis' : visited.contains id = false := Bool.of_not_eq_true hvis
        have hid_slack : slack U (id :: visited) + 1 = slack U visited :=
          slack_cons U hU hidU hvis'
        have hcl1 : Closed nbrs (id :: visited) (id :: stack) := by
          intro v hv hsv w hw
          have hvne : (v == id) = false := by
            cases hb : v == id with
            | false => rfl
            | true => exfalso; rw [contains_cons, hb] at hsv; simp at hsv
          have hvmem : visited.contains v = true := by
            rw [contains_cons, hvne] at hv
            simpa using hv
          have hsv0 : stack.contains v = false := by
            rw [contains_cons, hvne] at hsv
            simpa using hsv
          obtain ⟨hw1, hw2⟩ := hcl v hvmem hsv0 w hw
          constructor
          · rw [contains_cons, hw1]
            simp
          · have hwne : (w == id) = false := by
              cases hb : w == id with
              | false => rfl
              | true =>
                exfalso
                have hidv : visited.contains id = true := eq_of_beq hb ▸ hw1
                rw [hidv] at hvis'
                exact Bool.noConfusion hvis'
            rw [contains_cons, hwne, hw2]
            rfl
        have hnc1 : NoCyc nbrs (id :: visited) (id :: stack) := by
          intro v hv hsv hcyc
          have hvne : (v == id) = false := by
            cases hb : v == id with
            | false => rfl
            | true => exfalso; rw [contains_cons, hb] at hsv; simp at hsv
          have hvmem : visited.contains v = true := by
            rw [contains_cons, hvne] at hv
            simpa using hv
          have hsv0 : stack.contains v = false := by
            rw [contains_cons, hvne] at hsv
            simpa using hsv
          exact hnc v hvmem hsv0 hcyc
        have hfold : ∀ (l : List String), (∀ n ∈ l, n ∈ U) →
            ∀ (W : List String), (id :: visited) <:+ W →
              Closed nbrs W (id :: stack) → NoCyc nbrs W (id :: stack) →
              ∀ V2, l.foldl (hasCycleStep fun n v =>
                  hasCycleFuel nbrs fuel n (id :: stack) v) (false, W)
                  = (false, V2) →
                W <:+ V2 ∧
                (∀ n ∈ l, V2.contains n = true ∧
                  (id :: stack).contains n = false) ∧
                Closed nbrs V2 (id :: stack) ∧ NoCyc nbrs V2 (id :: stack) := by
          intro l
          induction l with
          | nil =>
            intro _ W _ hclW hncW V2 hfeq
            have hV2 := congrArg Prod.snd hfeq
            simp only [List.foldl_nil] at hV2
            subst hV2
            exact ⟨List.suffix_refl _, by simp, hclW, hncW⟩
          | cons n l2 ihl =>
            intro hlU W hWsuf hclW hncW V2 hfeq
            rcases hb : hasCycleFuel nbrs fuel n (id :: stack) W with ⟨b1, W1⟩
            have hstep : hasCycleStep
                (fun n v => hasCycleFuel nbrs fuel n (id :: stack) v)
                (false, W) n = (b1, W1) := by
              simp [hasCycleStep, hb]
            rw [List.foldl_cons, hstep] at hfeq
            cases b1 with
            | true =>
              rw [foldl_step_true] at hfeq
              exact absurd (congrArg Prod.fst hfeq) (by simp)
            | false =>
              have hsW : slack U W < fuel := by
                have h1 : slack U W ≤ slack U (id :: visited) :=
                  slack_le_of_suffix U hWsuf
                omega
              obtain ⟨hsuf1, hcont1, hcl2, hnc2⟩ :=
                ih n (id :: stack) W hsW (hlU n (by simp)) hclW hncW W1 hb
              have hnstack : (id :: stack).contains n = false := by
                cases fuel with
                | zero => exact absurd hsW (by omega)
                | succ fuel2 =>
                  by_contra hcontra
                  simp only [Bool.not_eq_false] at hcontra
                  rw [show hasCycleFuel nbrs (fuel2+1) n (id :: stack) W
                      = (true, W) from by
                    simp only [hasCycleFuel]
                    rw [if_pos hcontra]] at hb
                  exact absurd (congrArg Prod.fst hb) (by simp)
              obtain ⟨hsuf2, hall, hcl3, hnc3⟩ :=
                ihl (fun m hm => hlU m (by simp [hm])) W1
                  (hWsuf.trans hsuf1) hcl2 hnc2 V2 hfeq
              refine ⟨hsuf1.trans hsuf2, ?_, hcl3, hnc3⟩
              intro m hm
              rcases List.mem_cons.mp hm with rfl | hm2
              · exact ⟨contains_mono hsuf2 hcont1, hnstack⟩
              · exact hall m hm2
        obtain ⟨hsufF, hallF, hclF, hncF⟩ :=
          hfold (nbrs id) (fun n hn => hUcl id n hn) (id :: visited)
            (List.suffix_refl _) hcl1 hnc1 V' heq
        refine ⟨(List.suffix_cons id visited).trans hsufF,
          contains_mono hsufF (by rw [contains_cons]; simp), ?_, ?_⟩
        · intro v hv hsv w hw
          by_cases hvid : (v == id) = true
          · have hveq : v = id := eq_of_beq hvid
            subst hveq
            obtain ⟨hw1, hw2⟩ := hallF w hw
            rw [contains_cons] at hw2
            exact ⟨hw1, (Bool.or_eq_false_iff.mp hw2).2⟩
          · have hvne : (v == id) = false := Bool.of_not_eq_true hvid
            have hsv' : (id :: stack).contains v = false := by
              rw [contains_cons, hvne, hsv]
              rfl
            obtain ⟨hw1, hw2⟩ := hclF v hv hsv' w hw
            rw [contains_cons] at hw2
            exact ⟨hw1, (Bool.or_eq_false_iff.mp hw2).2⟩
        · intro v hv hsv hcyc
          by_cases hvid : (v == id) = true
          · have hveq : v = id := eq_of_beq hvid
            subst hveq
            obtain ⟨w, hw1, hw2⟩ := Relation.TransGen.head'_iff.mp hcyc
            obtain ⟨hwV, hwS⟩ := hallF w hw1
            obtain ⟨hidV2, hidS2⟩ := reach_in_closed hclF hw2 hwV hwS
            rw [contains_cons] at hidS2
            simp at hidS2
          · have hvne : (v == id) = false := Bool.of_not_eq_true hvid
            have hsv' : (id :: stack).contains v = false := by
              rw [contains_cons, hvne, hsv]
              rfl
            exact hncF v hv hsv' hcyc

theorem detectCyclesLoop_complete (nbrs : String → List String)
    (U : List String) (hU : U.Nodup) (hUcl : ∀ x, ∀ w ∈ nbrs x, w ∈ U)
    (fuel : Nat) (hfuel : U.length < fuel) :
    ∀ (ns : List FlowchartNode) (visited : List String),
      (∀ n ∈ ns, n.id ∈ U) →
      Closed nbrs visited [] → NoCyc nbrs visited [] →
      detectCyclesLoop nbrs fuel ns visited = [] →
      ∃ Vend, visited <:+ Vend ∧ (∀ n ∈ ns, Vend.contains n.id = true) ∧
        Closed nbrs Vend [] ∧ NoCyc nbrs Vend [] := by
  intro ns
  induction ns with
  | nil =>
    intro visited _ hcl hnc _
    exact ⟨visited, List.suffix_refl _, by simp, hcl, hnc⟩
  | cons n ns ih =>
    intro visited hns hcl hnc hloop
    unfold detectCyclesLoop at hloop
    split at hloop
    case _ hc =>
      obtain ⟨Vend, hsuf, hall, hcl2, hnc2⟩ :=
        ih visited (fun m hm => hns m (by simp [hm])) hcl hnc hloop
      refine ⟨Vend, hsuf, ?_, hcl2, hnc2⟩
      intro m hm
      rcases List.mem_cons.mp hm with rfl | hm2
      · exact contains_mono hsuf hc
      · exact hall m hm2
    case _ hc =>
      split at hloop
      case _ v hv => exact absurd hloop (by simp)
      case _ v hv =>
        have hslack : slack U visited < fuel :=
          lt_of_le_of_lt (slack_le_length U visited) hfuel
        obtain ⟨hsuf1, hcont, hcl2, hnc2⟩ :=
          hasCycleFuel_false_inv nbrs U hU hUcl fuel n.id [] visited hslack
            (hns n (by simp)) hcl hnc v hv
        obtain ⟨Vend, hsuf2, hall, hcl3, hnc3⟩ :=
          ih v (fun m hm => hns m (by simp [hm])) hcl2 hnc2 hloop
        refine ⟨Vend, hsuf1.trans hsuf2, ?_, hcl3, hnc3⟩
        intro m hm
        rcases List.mem_cons.mp hm with rfl | hm2
        · exact contains_mono hsuf2 hcont
        · exact hall m hm2

theorem neighbors_subset_idUniverse (nodes : List FlowchartNode)
    (edges : List FlowchartEdge) :
    ∀ x, ∀ w ∈ neighbors edges x, w ∈ idUniverse nodes edges := by
  intro x w hw
  unfold neighbors at hw
  rcases List.mem_filterMap.mp hw with ⟨e, he, hf⟩
  unfold idUniverse
  rw [List.mem_dedup]
  refine List.mem_append_right _ (List.mem_filterMap.mpr ⟨e, he, ?_⟩)
  split at hf
  case _ hcond =>
    simp only [Bool.and_eq_true] at hcond
    rw [if_pos (by simp [hcond.1.1, hcond.1.2])]
    exact hf
  case _ => exact Option.noConfusion hf

theorem nodeIds_subset_idUniverse (nodes : List FlowchartNode)
    (edges : List FlowchartEdge) :
    ∀ n ∈ nodes, n.id ∈ idUniverse nodes edges := by
  intro n hn
  unfold idUniverse
  rw [List.mem_dedup]
  exact List.mem_append_left _ (List.mem_map.mpr ⟨n, hn, rfl⟩)

theorem idUniverse_length (nodes : List FlowchartNode)
    (edges : List FlowchartEdge) :
    (idUniverse nodes edges).length ≤ nodes.length + edges.length := by
  unfold idUniverse
  have h1 := (List.dedup_sublist ((nodes.map fun n => n.id) ++
    edges.filterMap fun e =>
      if truthyStr e.sourceId && truthyStr e.targetId then e.targetId
      else none)).length_le
  have h2 := List.length_filterMap_le (fun e : FlowchartEdge =>
    if truthyStr e.sourceId && truthyStr e.targetId then e.targetId
    else none) edges
  rw [List.length_append, List.length_map] at h1
  omega

/-- C3: in every produced analysis, a directed cycle reachable from a listed
node yields exactly one generic potential-infinite-loop issue, and an acyclic
graph yields none.  The graph is the one built from edges with both endpoints
present (`EdgeRel`). -/
theorem cycle_detection (nodes : List FlowchartNode)
    (edges : List FlowchartEdge) (a : FlowchartAnalysis)
    (h : analyzeFlowchart (some (nodes, edges)) = some a) :
    ((∃ n ∈ nodes, ∃ c, Reaches edges n.id c ∧ OnCycle edges c) →
      a.issues.countP (fun s => s == cycleMsg) = 1) ∧
    ((∀ v, ¬ OnCycle edges v) →
      a.issues.countP (fun s => s == cycleMsg) = 0) := by
  obtain ⟨-, -, -, -, -, -, -, dead, hd, hiss⟩ := analyze_spec h
  have z1 : (startIssues a.startNodes).countP (fun s => s == cycleMsg) = 0 :=
    countP_eq_zero_of_all_ne fun s hs' => by
      rcases mem_startIssues hs' with rfl | rfl
      · decide
      · exact ne_of_rev4 (by rw [rev4_tooManyStartMsg]; decide)
  have z2 : (endIssues a.endNodes).countP (fun s => s == cycleMsg) = 0 :=
    countP_eq_zero_of_all_ne fun s hs' => by rw [mem_endIssues hs']; decide
  have z3 : (discIssues nodes edges).countP (fun s => s == cycleMsg) = 0 :=
    countP_eq_zero_of_all_ne fun s hs' => by
      rcases mem_discIssues hs' with ⟨m, rfl⟩
      exact ne_of_rev4 (by rw [rev4_disconnectedMsg]; decide)
  have z5 : (branchIssues a.decisionNodes edges).countP
      (fun s => s == cycleMsg) = 0 :=
    countP_eq_zero_of_all_ne fun s hs' => by
      rcases mem_branchIssues hs' with ⟨m, -, hk, rfl⟩
      rcases (by omega : outNum edges m.id = 0 ∨ outNum edges m.id = 1)
        with h0' | h1'
      · rw [h0']; exact ne_of_rev4 (by rw [rev4_decisionMsg0]; decide)
      · rw [h1']; exact ne_of_rev4 (by rw [rev4_decisionMsg1]; decide)
  have z6 : dead.countP (fun s => s == cycleMsg) = 0 :=
    countP_eq_zero_of_all_ne fun s hs' => by
      rcases mem_deadEndIssues hd hs' with ⟨t, lb, rfl⟩
      exact ne_of_rev4 (by rw [rev4_deadEndMsg]; decide)
  have hsum : a.issues.countP (fun s => s == cycleMsg) =
      (detectCycles nodes edges).countP (fun s => s == cycleMsg) := by
    rw [hiss]
    simp only [List.countP_append, z1, z2, z3, z5, z6]
    omega
  constructor
  · rintro ⟨n, hn, c, hreach, hcyc⟩
    have hne : detectCycles nodes edges ≠ [] := by
      intro hempty
      unfold detectCycles at hempty
      obtain ⟨Vend, -, hall, hclE, hncE⟩ :=
        detectCyclesLoop_complete (neighbors edges) (idUniverse nodes edges)
          (List.nodup_dedup _) (neighbors_subset_idUniverse nodes edges)
          (nodes.length + edges.length + 1)
          (by have := idUniverse_length nodes edges; omega)
          nodes [] (nodeIds_subset_idUniverse nodes edges)
          (fun v hv => Bool.noConfusion hv)
          (fun v hv => Bool.noConfusion hv)
          hempty
      obtain ⟨hcV2, -⟩ := reach_in_closed hclE hreach (hall n hn) rfl
      exact hncE c hcV2 rfl hcyc
    rcases detectCyclesLoop_shape (neighbors edges)
        (nodes.length + edges.length + 1) nodes [] with he | he
    · exact absurd he hne
    · rw [hsum]
      unfold detectCycles
      rw [he]
      decide
  · intro hacyclic
    have hempty : detectCycles nodes edges = [] := by
      rcases detectCyclesLoop_shape (neighbors edges)
          (nodes.length + edges.length + 1) nodes [] with he | he
      · exact he
      · exfalso
        obtain ⟨v, hv⟩ := detectCyclesLoop_sound (neighbors edges)
          (nodes.length + edges.length + 1) nodes [] (by rw [he]; simp)
        exact hacyclic v hv
    rw [hsum, hempty]
    rfl

/-- Witness for C3: the three-node cycle `A → B → C → A` yields exactly one
potential-infinite-loop issue. -/
theorem cycle_detection_witness :
    analyzeFlowchart (some ([nACex, nBCex, nCCex], [eABCex, eBCCex, eCACex]))
        = some anaC3 ∧
      anaC3.issues.countP (fun s => s == cycleMsg) = 1 := by
  refine ⟨by decide, ?_⟩
  refine (cycle_detection [nACex, nBCex, nCCex] [eABCex, eBCCex, eCACex] anaC3
    (by decide)).1 ⟨nACex, by decide, "A", Relation.ReflTransGen.refl, ?_⟩
  exact Relation.TransGen.head
    (by decide : ("B" : String) ∈ neighbors [eABCex, eBCCex, eCACex] "A")
    (Relation.TransGen.head
      (by decide : ("C" : String) ∈ neighbors [eABCex, eBCCex, eCACex] "B")
      (Relation.TransGen.single
        (by decide : ("A" : String) ∈ neighbors [eABCex, eBCCex, eCACex] "C")))

end Flowchart
